import Mathlib

/-!
# Buddy allocator (`src/buddy/buddy.c`)

A shallow embedding of the allocator of `buddy.c` and theorems about it.

Modelling conventions.

* C `int` values are `Int`; every shift `1 << k` that the code evaluates has
  `k ≤ MAX_ORDER = 20`, so no 32-bit overflow can occur and `1 << k` is `2 ^ k`.
* Pointers into the region follow the block/offset view of C memory: a pointer
  is either `NULL` or `g_memory + off`, recorded by its byte offset `off` from
  the region base `g_memory`.
* The global arrays `free_area[]` and `g_pages[]` are total maps from the
  array index. `buddy.c` only touches `free_area[MIN_ORDER..MAX_ORDER]` and
  `g_pages[0..n_pages-1]`.
* The intrusive lists of `list.h` are kept as the sequence of page descriptors
  (page indices) reachable from the list head, front first.
* The `char blockAddress` member of `page_t` is written once by `buddy_init`
  (a pointer truncated to `char`) and never read; it is left out.
* A call that may recurse takes a fuel argument bounding the depth of nested
  calls; `none` means that the bound was hit before the call returned.
-/

namespace Buddy

/-! ## Region layout -/

/-- The constant `#define MIN_ORDER 12`. -/
def MIN_ORDER : Nat := 12

/-- The constant `#define MAX_ORDER 20`. -/
def MAX_ORDER : Nat := 20

/-- The constant `#define PAGE_SIZE (1<<MIN_ORDER)`. -/
def PAGE_SIZE : Nat := 2 ^ MIN_ORDER

/-- The local `n_pages = (1<<MAX_ORDER) / PAGE_SIZE` of `buddy_init`, also the
length of `g_pages[]`. -/
def n_pages : Nat := 2 ^ MAX_ORDER / PAGE_SIZE

/-! ## Data model -/

/-- A `void *` value: `NULL`, or the address `g_memory + off`. -/
inductive Ptr where
  | null : Ptr
  | mem (off : Int) : Ptr
deriving DecidableEq

/-- The members of `page_t` that the code reads: `Pageindex` and `blockSize`
(the recorded order, `-1` when the page heads no block). The `list` member is
represented by membership of the page in a free list of `State`. -/
structure page_t where
  Pageindex : Int
  blockSize : Int
deriving DecidableEq

/-- The global variables of `buddy.c`: `free_area[]` (each list as the page
indices of its entries, front first) and `g_pages[]`. -/
structure State where
  free_area : Nat → List Nat
  g_pages : Nat → page_t

/-! ## Address translation macros -/

/-- The macro `PAGE_TO_ADDR(page_idx)`: `(page_idx*PAGE_SIZE) + g_memory`. -/
def PAGE_TO_ADDR (page_idx : Int) : Ptr :=
  Ptr.mem (page_idx * PAGE_SIZE)

/-- The macro `ADDR_TO_PAGE(addr)`: `(unsigned long)(addr - g_memory) / PAGE_SIZE`.
The difference of `NULL` and `g_memory` is not defined (`none`); a negative
difference wraps to a 64-bit unsigned value. -/
def ADDR_TO_PAGE : Ptr → Option Nat
  | Ptr.null => none
  | Ptr.mem off => some ((off % 2 ^ 64).toNat / PAGE_SIZE)

/-- The macro `BUDDY_ADDR(addr, o)`: `((addr - g_memory) ^ (1<<o)) + g_memory`, on the
unsigned offset. -/
def BUDDY_ADDR : Ptr → Nat → Option Ptr
  | Ptr.null, _ => none
  | Ptr.mem off, o => some (Ptr.mem (((off % 2 ^ 64).toNat ^^^ 2 ^ o : Nat) : Int))

/-! ## List operations

Modelled from the spec: `list.h` is not part of the sources. The spec describes
each free list as a doubly-linked list of descriptors with LIFO behaviour;
`list_add(new, head)` inserts right after the head, `list_empty(head)` tests
for no entry, `list_entry(head.next, ..)` is the front entry, `list_del`
unlinks an entry and `list_for_each` visits every entry once. -/

/-- Modelled from the spec: `INIT_LIST_HEAD(&free_area[o])`, the list of order
`o` becomes empty. -/
def INIT_LIST_HEAD (fa : Nat → List Nat) (o : Nat) : Nat → List Nat :=
  Function.update fa o []

/-- Modelled from the spec: `list_add(&g_pages[p].list, &free_area[o])`, page
`p` is inserted at the front of the list of order `o`. -/
def list_add (fa : Nat → List Nat) (p o : Nat) : Nat → List Nat :=
  Function.update fa o (p :: fa o)

/-- Modelled from the spec: `list_empty(&free_area[o])`. -/
def list_empty (fa : Nat → List Nat) (o : Nat) : Bool :=
  (fa o).isEmpty

/-- Modelled from the spec: `list_del` applied to the front entry of the list
of order `o`, as `buddy_alloc` does. -/
def list_del_front (fa : Nat → List Nat) (o : Nat) : Nat → List Nat :=
  Function.update fa o (fa o).tail

/-! ## `buddy_init` -/

/-- First loop of `buddy_init`: for `i = 0 .. n-1`, `g_pages[i].Pageindex = i`
and `g_pages[i].blockSize = -1`. (`INIT_LIST_HEAD(&g_pages[i].list)` only resets
the node of the page; the lists are rebuilt from their heads below.) -/
def initPages (g : Nat → page_t) (n : Nat) : Nat → page_t :=
  (List.range n).foldl (fun g i => Function.update g i ⟨(i : Int), -1⟩) g

/-- Second loop of `buddy_init`: for `i = MIN_ORDER .. MAX_ORDER`,
`INIT_LIST_HEAD(&free_area[i])`. The argument `n` is the number of orders. -/
def initLists (fa : Nat → List Nat) (n : Nat) : Nat → List Nat :=
  (List.range n).foldl (fun fa k => INIT_LIST_HEAD fa (MIN_ORDER + k)) fa

/-- The function `buddy_init()`: both loops, `g_pages[0].blockSize = MAX_ORDER`, and
`list_add(&g_pages[0].list, &free_area[MAX_ORDER])`. -/
def buddy_init (s : State) : State :=
  let g1 := initPages s.g_pages n_pages
  let g2 := Function.update g1 0 { g1 0 with blockSize := (MAX_ORDER : Int) }
  let fa1 := initLists s.free_area (MAX_ORDER + 1 - MIN_ORDER)
  { free_area := list_add fa1 0 MAX_ORDER, g_pages := g2 }

/-! ## `buddy_alloc` -/

/-- What a call of `buddy_alloc` does when it returns: the pointer returned,
the globals afterwards and the text printed; or undefined behaviour (an array
index out of bounds, arithmetic on `NULL`). -/
inductive Outcome where
  | ret (p : Ptr) (s : State) (out : String) : Outcome
  | undef : Outcome

/-- The order loop `while(size_order <= MAX_ORDER && (1 << size_order)<size)
size_order++;`, run for at most `n` iterations from `so`. -/
def orderLoop (size : Int) : Nat → Nat → Nat
  | 0, so => so
  | n + 1, so =>
    if so ≤ MAX_ORDER ∧ (2 : Int) ^ so < size then orderLoop size n (so + 1) else so

/-- The value of `size_order` after the order loop, started at `MIN_ORDER`.
The loop increments at most `MAX_ORDER + 1 - MIN_ORDER` times (see
`size_order_exit`). -/
def size_order (size : Int) : Nat :=
  orderLoop size (MAX_ORDER + 1 - MIN_ORDER) MIN_ORDER

/-- The scan `for (i = ..; i <= MAX_ORDER; i++) if (!list_empty(&free_area[i]))`:
the first order, among the `n` orders from `i` on, whose list is not empty. -/
def firstNonEmpty (fa : Nat → List Nat) : Nat → Nat → Option Nat
  | _, 0 => none
  | i, n + 1 => if list_empty fa i then firstNonEmpty fa (i + 1) n else some i

/-- The function `buddy_alloc(size)`, with `fuel` bounding the depth of nested
calls. The nested call of the split branch runs on the globals as they are at
that point, which is the state `s` the call started with. -/
def buddy_alloc : Nat → State → Int → Option Outcome
  | 0, _, _ => none
  | fuel + 1, s, size =>
    if size > 2 ^ MAX_ORDER ∨ size ≤ 0 then
      some (Outcome.ret Ptr.null s "ERROR: invalid size \n")
    else
      let so := size_order size
      match firstNonEmpty s.free_area so (MAX_ORDER + 1 - so) with
      | none => some (Outcome.ret Ptr.null s "")
      | some i =>
        if i = so then
          match s.free_area i with
          | [] => some Outcome.undef
          | left :: _ =>
            let fa := list_del_front s.free_area i
            let g := Function.update s.g_pages left
              { s.g_pages left with blockSize := (so : Int) }
            some (Outcome.ret (PAGE_TO_ADDR (g left).Pageindex)
              { free_area := fa, g_pages := g } "")
        else
          match buddy_alloc fuel s (2 ^ so) with
          | none => none
          | some Outcome.undef => some Outcome.undef
          | some (Outcome.ret p s1 out) =>
            match ADDR_TO_PAGE p with
            | none => some Outcome.undef
            | some left =>
              let requestIndex : Int :=
                (s1.g_pages left).Pageindex + (2 : Int) ^ so / (PAGE_SIZE : Int)
              if left < n_pages ∧ 0 ≤ requestIndex ∧ requestIndex < (n_pages : Int) then
                let fa := list_add s1.free_area requestIndex.toNat so
                let g := Function.update s1.g_pages left
                  { s1.g_pages left with blockSize := (so : Int) }
                some (Outcome.ret (PAGE_TO_ADDR (g left).Pageindex)
                  { free_area := fa, g_pages := g } out)
              else some Outcome.undef

/-! ## `buddy_free` and `buddy_dump` -/

/-- The function `buddy_free(addr)`: the body is empty. -/
def buddy_free (s : State) (_addr : Ptr) : State := s

/-- The counter `cnt` of `buddy_dump` for order `o`: one increment per entry
visited by `list_for_each`. -/
def dumpCount (s : State) (o : Nat) : Nat :=
  (s.free_area o).foldl (fun cnt _ => cnt + 1) 0

/-- The text of `printf("%d:%dK ", cnt, (1<<o)/1024)`. -/
def dumpEntry (s : State) (o : Nat) : String :=
  toString (dumpCount s o) ++ ":" ++ toString (2 ^ o / 1024) ++ "K "

/-- The function `buddy_dump()`: the text printed; the globals are not written. -/
def buddy_dump (s : State) : String :=
  (List.range (MAX_ORDER + 1 - MIN_ORDER)).foldl
    (fun out k => out ++ dumpEntry s (MIN_ORDER + k)) "" ++ "\n"

/-! ## Derived notions used by the statements -/

/-- The globals after the exact-order branch of `buddy_alloc` took page `left`
from the front of the list of order `o`: `list_del` of that entry and
`left->blockSize = size_order`. -/
def takeFront (s : State) (o left : Nat) : State :=
  { free_area := list_del_front s.free_area o,
    g_pages := Function.update s.g_pages left { s.g_pages left with blockSize := (o : Int) } }

/-- A state with no list entry and all-zero descriptors, used in examples as
some state of the globals that `buddy_init()` is then run on. (It is not the
zero-filled C globals before the first `buddy_init()`, whose list heads are
not yet lists.) -/
def blank : State :=
  { free_area := fun _ => [], g_pages := fun _ => ⟨0, 0⟩ }

/-- States reachable from `buddy_init()` by calls of `buddy_alloc` and
`buddy_free` that return. -/
inductive Reachable : State → Prop where
  | init (s0 : State) : Reachable (buddy_init s0)
  | alloc {s s1 : State} (fuel : Nat) (size : Int) (p : Ptr) (out : String) :
      Reachable s → buddy_alloc fuel s size = some (Outcome.ret p s1 out) → Reachable s1
  | free {s : State} (addr : Ptr) : Reachable s → Reachable (buddy_free s addr)

/-- The order recorded for the block at region offset `a`: `blockSize` of the
descriptor `g_pages[ADDR_TO_PAGE(a)]`. -/
def recordedOrder (s : State) (a : Int) : Nat :=
  (s.g_pages ((a % 2 ^ 64).toNat / PAGE_SIZE)).blockSize.toNat

/-- The byte ranges `[a, a + 2^o)` and `[b, b + 2^o2)` of the blocks at offsets
`a` and `b`, with their recorded orders, do not intersect. -/
def disjointBlocks (s : State) (a b : Int) : Prop :=
  a + 2 ^ recordedOrder s a ≤ b ∨ b + 2 ^ recordedOrder s b ≤ a

/-- Runs of the allocator from a state `s0`, with the offsets of the blocks
that `buddy_alloc` has returned and that have not been passed to `buddy_free`
since (latest first). A call of `buddy_alloc` that returns `NULL` adds none. -/
inductive RunFrom (s0 : State) : State → List Int → Prop where
  | start : RunFrom s0 s0 []
  | alloc {s s1 : State} {live : List Int} (fuel : Nat) (size : Int) (a : Int)
      (out : String) :
      RunFrom s0 s live → buddy_alloc fuel s size = some (Outcome.ret (Ptr.mem a) s1 out) →
      RunFrom s0 s1 (a :: live)
  | allocNull {s s1 : State} {live : List Int} (fuel : Nat) (size : Int) (out : String) :
      RunFrom s0 s live → buddy_alloc fuel s size = some (Outcome.ret Ptr.null s1 out) →
      RunFrom s0 s1 live
  | free {s : State} {live : List Int} (a : Int) :
      RunFrom s0 s live → RunFrom s0 (buddy_free s (Ptr.mem a)) (live.filter (fun b => b ≠ a))
  | freeNull {s : State} {live : List Int} :
      RunFrom s0 s live → RunFrom s0 (buddy_free s Ptr.null) live

/-- The byte ranges `[a, a + 2^o)` and `[b, b + 2^o2)` do not intersect. -/
def rangesDisjoint (a : Int) (o : Nat) (b : Int) (o2 : Nat) : Prop :=
  a + 2 ^ o ≤ b ∨ b + 2 ^ o2 ≤ a

/-- The free lists of orders `MIN_ORDER..MAX_ORDER` describe disjoint free
blocks: every entry `p` is a descriptor of `g_pages[]` with `Pageindex = p`,
and the byte ranges `[p * PAGE_SIZE, p * PAGE_SIZE + 2^k)` of the entries (`k`
the order of the list an entry is in) are pairwise disjoint, within a list and
across lists. -/
def FreeDisjoint (s : State) : Prop :=
  (∀ k, MIN_ORDER ≤ k → k ≤ MAX_ORDER → ∀ p ∈ s.free_area k,
    p < n_pages ∧ (s.g_pages p).Pageindex = (p : Int)) ∧
  (∀ k, MIN_ORDER ≤ k → k ≤ MAX_ORDER → (s.free_area k).Pairwise
    (fun (p q : Nat) => rangesDisjoint ((p : Int) * PAGE_SIZE) k ((q : Int) * PAGE_SIZE) k)) ∧
  (∀ k k2, MIN_ORDER ≤ k → k ≤ MAX_ORDER → MIN_ORDER ≤ k2 → k2 ≤ MAX_ORDER → k ≠ k2 →
    ∀ p ∈ s.free_area k, ∀ q ∈ s.free_area k2,
      rangesDisjoint ((p : Int) * PAGE_SIZE) k ((q : Int) * PAGE_SIZE) k2)

/-- The live blocks start at pages of the region, each is disjoint from every
free block, and they are pairwise disjoint (with their recorded orders). -/
def LiveDisjoint (s : State) (live : List Int) : Prop :=
  (∀ a ∈ live, ∃ q : Nat, q < n_pages ∧ a = (q : Int) * PAGE_SIZE ∧
    ∀ k, MIN_ORDER ≤ k → k ≤ MAX_ORDER → ∀ p ∈ s.free_area k,
      rangesDisjoint a (recordedOrder s a) ((p : Int) * PAGE_SIZE) k) ∧
  live.Pairwise (disjointBlocks s)

/-- A buddy layout of the whole region with nine free blocks, as the split
described in the comment of `buddy_alloc` leaves it once its left block is
free again: pages 0 and 1 at order 12, and for each order `k` in `13..19` the
block headed by page `2^(k-12)`; every head carries its order. -/
def splitState : State :=
  { free_area := fun k =>
      if k = 12 then [0, 1] else if 13 ≤ k ∧ k ≤ 19 then [2 ^ (k - 12)] else [],
    g_pages := fun i => ⟨(i : Int),
      if i = 0 then 12 else if i = 1 then 12 else if i = 2 then 13 else if i = 4 then 14
      else if i = 8 then 15 else if i = 16 then 16 else if i = 32 then 17
      else if i = 64 then 18 else if i = 128 then 19 else -1⟩ }

/-- Every entry of a free list of order `k` is a descriptor whose block
starts at a multiple of `2^k` (the offset `PAGE_TO_ADDR` gives for it). -/
def AlignedLists (s : State) : Prop :=
  ∀ k, MIN_ORDER ≤ k → k ≤ MAX_ORDER → ∀ p ∈ s.free_area k,
    (2 : Int) ^ k ∣ (s.g_pages p).Pageindex * (PAGE_SIZE : Int)

/-- The globals after `buddy_dump()`: the function assigns to no global. -/
def buddy_dump_globals (s : State) : State := s

/-- The failures the specification lists for `free`. -/
inductive FreeFailure where
  | InvalidAddress : FreeFailure
  | DoubleFreeOrNotAllocated : FreeFailure
deriving DecidableEq

/-- What a call `buddy_free(addr)` reports to its caller: the function is
`void`, its body has no statement and prints nothing, so no failure is ever
reported. -/
def buddy_free_report (_s : State) (_addr : Ptr) : Option FreeFailure := none

/-- Runs of the allocator from `buddy_init()`, with the offsets of all blocks
that `buddy_alloc` has returned since then (latest first), whether or not
they were passed to `buddy_free` afterwards. -/
inductive Handed : State → List Int → Prop where
  | init (s0 : State) : Handed (buddy_init s0) []
  | alloc {s s1 : State} {given : List Int} (fuel : Nat) (size : Int) (a : Int)
      (out : String) :
      Handed s given → buddy_alloc fuel s size = some (Outcome.ret (Ptr.mem a) s1 out) →
      Handed s1 (a :: given)
  | allocNull {s s1 : State} {given : List Int} (fuel : Nat) (size : Int) (out : String) :
      Handed s given → buddy_alloc fuel s size = some (Outcome.ret Ptr.null s1 out) →
      Handed s1 given
  | free {s : State} {given : List Int} (addr : Ptr) :
      Handed s given → Handed (buddy_free s addr) given

/-- Page `h` heads a block: its recorded order is not the value `-1`. -/
def isHead (s : State) (h : Nat) : Prop :=
  (s.g_pages h).blockSize ≠ -1

/-- The number of pages `2^(o - MIN_ORDER)` of the block headed by page `h`,
for `o` the order recorded on `h`. -/
def blockPages (s : State) (h : Nat) : Nat :=
  2 ^ ((s.g_pages h).blockSize.toNat - MIN_ORDER)

/-- The heads among `g_pages[0..n_pages-1]` partition the region: every head
has an order in `MIN_ORDER..MAX_ORDER` and starts at a multiple of `2^order`,
the page ranges `[h, h + 2^(order - MIN_ORDER))` lie in the region, are
pairwise disjoint and cover every page. -/
def Partition (s : State) : Prop :=
  (∀ h, h < n_pages → isHead s h →
    (MIN_ORDER : Int) ≤ (s.g_pages h).blockSize ∧ (s.g_pages h).blockSize ≤ (MAX_ORDER : Int) ∧
    2 ^ (s.g_pages h).blockSize.toNat ∣ h * PAGE_SIZE ∧
    h + blockPages s h ≤ n_pages) ∧
  (∀ h h2, h < n_pages → h2 < n_pages → isHead s h → isHead s h2 → h ≠ h2 →
    h + blockPages s h ≤ h2 ∨ h2 + blockPages s h2 ≤ h) ∧
  (∀ i, i < n_pages → ∃ h, h < n_pages ∧ isHead s h ∧ h ≤ i ∧ i < h + blockPages s h)

/-! ## Basic facts about the embedding -/

theorem initPages_apply (g : Nat → page_t) (n i : Nat) :
    initPages g n i = if i < n then ⟨(i : Int), -1⟩ else g i := by
  induction n with
  | zero => simp [initPages]
  | succ n ih =>
    have hstep : initPages g (n + 1) = Function.update (initPages g n) n ⟨(n : Int), -1⟩ := by
      simp [initPages, List.range_succ, List.foldl_append]
    rw [hstep]
    by_cases h : i = n
    · subst h; simp
    · rw [Function.update_noteq h, ih]
      by_cases h1 : i < n
      · simp [h1, Nat.lt_succ_of_lt h1]
      · have h2 : ¬ i < n + 1 := by omega
        simp [h1, h2]

theorem initLists_apply (fa : Nat → List Nat) (n o : Nat) :
    initLists fa n o = if MIN_ORDER ≤ o ∧ o < MIN_ORDER + n then [] else fa o := by
  induction n with
  | zero =>
    have : ¬ (MIN_ORDER ≤ o ∧ o < MIN_ORDER + 0) := by omega
    rw [if_neg this]
    simp [initLists]
  | succ n ih =>
    have hstep : initLists fa (n + 1) = INIT_LIST_HEAD (initLists fa n) (MIN_ORDER + n) := by
      simp [initLists, List.range_succ, List.foldl_append]
    rw [hstep, INIT_LIST_HEAD]
    by_cases h : o = MIN_ORDER + n
    · subst h; simp
    · rw [Function.update_noteq h, ih]
      by_cases h1 : MIN_ORDER ≤ o ∧ o < MIN_ORDER + n
      · have h2 : MIN_ORDER ≤ o ∧ o < MIN_ORDER + (n + 1) := by omega
        simp [h1, h2]
      · have h2 : ¬ (MIN_ORDER ≤ o ∧ o < MIN_ORDER + (n + 1)) := by omega
        simp [h1, h2]

/-- The free lists after `buddy_init`. -/
theorem buddy_init_free_area (s : State) (o : Nat) :
    (buddy_init s).free_area o =
      if o = MAX_ORDER then [0]
      else if MIN_ORDER ≤ o ∧ o < MAX_ORDER then [] else s.free_area o := by
  simp only [buddy_init, list_add]
  by_cases h : o = MAX_ORDER
  · subst h
    simp [initLists_apply, MIN_ORDER, MAX_ORDER]
  · rw [Function.update_noteq h, initLists_apply]
    simp only [MIN_ORDER, MAX_ORDER] at h ⊢
    by_cases h1 : 12 ≤ o ∧ o < 20
    · have h2 : 12 ≤ o ∧ o < 12 + (20 + 1 - 12) := by omega
      simp [h, h1, h2]
    · have h2 : ¬ (12 ≤ o ∧ o < 12 + (20 + 1 - 12)) := by omega
      simp [h, h1, h2]

/-- The page descriptors after `buddy_init`. -/
theorem buddy_init_g_pages (s : State) (i : Nat) :
    (buddy_init s).g_pages i =
      if i = 0 then ⟨0, (MAX_ORDER : Int)⟩
      else if i < n_pages then ⟨(i : Int), -1⟩ else s.g_pages i := by
  simp only [buddy_init]
  by_cases h : i = 0
  · subst h
    simp [initPages_apply, n_pages, MAX_ORDER, PAGE_SIZE, MIN_ORDER]
  · rw [Function.update_noteq h, initPages_apply]
    simp [h]

/-! ### The order loop -/

theorem orderLoop_ge (size : Int) (n so : Nat) : so ≤ orderLoop size n so := by
  induction n generalizing so with
  | zero => simp [orderLoop]
  | succ n ih =>
    rw [orderLoop]
    split
    · exact Nat.le_trans (Nat.le_succ so) (ih (so + 1))
    · exact Nat.le_refl so

theorem orderLoop_below (size : Int) (n so : Nat)
    (h : ∀ j, MIN_ORDER ≤ j → j < so → (2 : Int) ^ j < size) :
    ∀ j, MIN_ORDER ≤ j → j < orderLoop size n so → (2 : Int) ^ j < size := by
  induction n generalizing so with
  | zero => simpa [orderLoop] using h
  | succ n ih =>
    rw [orderLoop]
    split
    · rename_i hc
      apply ih
      intro j hj hlt
      by_cases hjs : j = so
      · subst hjs; exact hc.2
      · exact h j hj (by omega)
    · exact h

/-- The loop has stopped: enough iterations are allowed for the loop condition
to be false at the value `size_order` returns. -/
theorem size_order_exit (size : Int) :
    ¬ (size_order size ≤ MAX_ORDER ∧ (2 : Int) ^ size_order size < size) := by
  simp only [size_order, orderLoop, MAX_ORDER, MIN_ORDER]
  norm_num
  split_ifs <;> omega

theorem size_order_ge (size : Int) : MIN_ORDER ≤ size_order size :=
  orderLoop_ge size _ _

theorem size_order_le (size : Int) (h : size ≤ 2 ^ MAX_ORDER) :
    size_order size ≤ MAX_ORDER := by
  simp only [size_order, orderLoop, MAX_ORDER, MIN_ORDER] at *
  norm_num at *
  split_ifs <;> omega

theorem size_order_fits (size : Int) (h : size ≤ 2 ^ MAX_ORDER) :
    size ≤ 2 ^ size_order size := by
  have h1 := size_order_exit size
  have h2 := size_order_le size h
  by_contra hc
  exact h1 ⟨h2, lt_of_not_ge hc⟩

theorem size_order_least (size : Int) (o : Nat) (ho : MIN_ORDER ≤ o)
    (hfit : size ≤ 2 ^ o) : size_order size ≤ o := by
  by_contra hc
  have hlt : o < size_order size := Nat.lt_of_not_le hc
  have := orderLoop_below size (MAX_ORDER + 1 - MIN_ORDER) MIN_ORDER
    (fun j hj hj2 => absurd hj2 (Nat.not_lt.mpr hj)) o ho hlt
  exact absurd hfit (not_le.mpr this)

/-- The order of a request is the only order with the properties of the least
fitting order. -/
theorem size_order_unique (size : Int) (h : size ≤ 2 ^ MAX_ORDER) (o : Nat)
    (ho : MIN_ORDER ≤ o) (hfit : size ≤ 2 ^ o)
    (hmin : ∀ k : Nat, MIN_ORDER ≤ k → size ≤ 2 ^ k → o ≤ k) :
    o = size_order size :=
  Nat.le_antisymm (hmin _ (size_order_ge size) (size_order_fits size h))
    (size_order_least size o ho hfit)

/-- A request of exactly `2 ^ o` bytes has order `o`. -/
theorem size_order_pow (o : Nat) (h1 : MIN_ORDER ≤ o) (h2 : o ≤ MAX_ORDER) :
    size_order ((2 : Int) ^ o) = o := by
  simp only [MIN_ORDER, MAX_ORDER] at h1 h2
  interval_cases o <;> decide

/-! ### The scan of the free lists -/

theorem firstNonEmpty_none (fa : Nat → List Nat) (i n : Nat) :
    firstNonEmpty fa i n = none ↔ ∀ k, i ≤ k → k < i + n → fa k = [] := by
  induction n generalizing i with
  | zero =>
    simp only [firstNonEmpty, true_iff]
    intro k h1 h2
    omega
  | succ n ih =>
    rw [firstNonEmpty]
    by_cases he : list_empty fa i = true
    · rw [if_pos he, ih]
      have he1 : fa i = [] := by simpa [list_empty] using he
      constructor
      · intro h k h1 h2
        by_cases hk : k = i
        · subst hk; exact he1
        · exact h k (by omega) (by omega)
      · intro h k h1 h2
        exact h k (by omega) (by omega)
    · rw [if_neg he]
      have he1 : fa i ≠ [] := by simpa [list_empty] using he
      constructor
      · intro h; cases h
      · intro h
        exact absurd (h i (Nat.le_refl i) (by omega)) he1

theorem firstNonEmpty_some (fa : Nat → List Nat) (i n k : Nat)
    (h : firstNonEmpty fa i n = some k) :
    i ≤ k ∧ k < i + n ∧ fa k ≠ [] ∧ ∀ j, i ≤ j → j < k → fa j = [] := by
  induction n generalizing i with
  | zero => simp [firstNonEmpty] at h
  | succ n ih =>
    rw [firstNonEmpty] at h
    by_cases he : list_empty fa i = true
    · rw [if_pos he] at h
      have he1 : fa i = [] := by simpa [list_empty] using he
      obtain ⟨h1, h2, h3, h4⟩ := ih (i + 1) h
      refine ⟨by omega, by omega, h3, ?_⟩
      intro j hj1 hj2
      by_cases hj : j = i
      · subst hj; exact he1
      · exact h4 j (by omega) hj2
    · rw [if_neg he] at h
      have he1 : fa i ≠ [] := by simpa [list_empty] using he
      cases h
      exact ⟨Nat.le_refl _, by omega, he1, fun j hj1 hj2 => absurd hj1 (by omega)⟩

/-! ### The branches of `buddy_alloc` -/

theorem buddy_alloc_invalid (fuel : Nat) (s : State) (size : Int)
    (h : size > 2 ^ MAX_ORDER ∨ size ≤ 0) :
    buddy_alloc (fuel + 1) s size
      = some (Outcome.ret Ptr.null s "ERROR: invalid size \n") := by
  rw [buddy_alloc, if_pos h]

theorem buddy_alloc_nothing (fuel : Nat) (s : State) (size : Int)
    (h : ¬ (size > 2 ^ MAX_ORDER ∨ size ≤ 0))
    (hscan : firstNonEmpty s.free_area (size_order size)
      (MAX_ORDER + 1 - size_order size) = none) :
    buddy_alloc (fuel + 1) s size = some (Outcome.ret Ptr.null s "") := by
  rw [buddy_alloc, if_neg h]
  simp only [hscan]

theorem buddy_alloc_exact (fuel : Nat) (s : State) (size : Int)
    (h : ¬ (size > 2 ^ MAX_ORDER ∨ size ≤ 0)) (left : Nat) (rest : List Nat)
    (hlist : s.free_area (size_order size) = left :: rest) :
    buddy_alloc (fuel + 1) s size
      = some (Outcome.ret (PAGE_TO_ADDR (s.g_pages left).Pageindex)
          (takeFront s (size_order size) left) "") := by
  have hle : size_order size ≤ MAX_ORDER := size_order_le size (by
    by_contra hc; exact h (Or.inl (lt_of_not_ge hc)))
  have hscan : firstNonEmpty s.free_area (size_order size)
      (MAX_ORDER + 1 - size_order size) = some (size_order size) := by
    obtain ⟨n, hn⟩ : ∃ n, MAX_ORDER + 1 - size_order size = n + 1 :=
      ⟨MAX_ORDER - size_order size, by omega⟩
    rw [hn, firstNonEmpty]
    simp [list_empty, hlist]
  rw [buddy_alloc, if_neg h]
  simp only [hscan, if_true, hlist, takeFront, Function.update_same]

/-- The split branch never returns: the nested call `buddy_alloc(1<<size_order)`
runs on the unchanged globals, computes the same order and takes the same
branch, so no depth of nesting is enough. -/
theorem buddy_alloc_split (s : State) (size : Int)
    (h : ¬ (size > 2 ^ MAX_ORDER ∨ size ≤ 0)) (i : Nat)
    (hscan : firstNonEmpty s.free_area (size_order size)
      (MAX_ORDER + 1 - size_order size) = some i)
    (hne : i ≠ size_order size) (fuel : Nat) :
    buddy_alloc fuel s size = none := by
  have hle : size_order size ≤ MAX_ORDER := size_order_le size (by
    by_contra hc; exact h (Or.inl (lt_of_not_ge hc)))
  have hpow : size_order ((2 : Int) ^ size_order size) = size_order size :=
    size_order_pow _ (size_order_ge size) hle
  have hvalid : ¬ ((2 : Int) ^ size_order size > 2 ^ MAX_ORDER ∨ (2 : Int) ^ size_order size ≤ 0) := by
    intro hc
    rcases hc with hc | hc
    · have : (2 : Int) ^ size_order size ≤ 2 ^ MAX_ORDER :=
        pow_le_pow_right₀ (by norm_num) hle
      exact absurd hc (not_lt.mpr this)
    · have : (0 : Int) < 2 ^ size_order size := by positivity
      exact absurd hc (not_le.mpr this)
  have key : ∀ (fuel : Nat) (sz : Int), ¬ (sz > 2 ^ MAX_ORDER ∨ sz ≤ 0) →
      size_order sz = size_order size → buddy_alloc fuel s sz = none := by
    intro fuel
    induction fuel with
    | zero => intro sz _ _; rfl
    | succ fuel ih =>
      intro sz hsz hord
      rw [buddy_alloc, if_neg hsz]
      simp only [hord, hscan, if_neg hne, ih _ hvalid hpow]
  exact key fuel size h rfl

/-- Every way a call of `buddy_alloc` returns: `NULL` with the globals
untouched (invalid size, or nothing free from the order of the request up), or
the front entry of the list of exactly the order of the request. -/
theorem buddy_alloc_returns (fuel : Nat) (s : State) (size : Int) (p : Ptr) (s1 : State)
    (out : String) (h : buddy_alloc fuel s size = some (Outcome.ret p s1 out)) :
    (p = Ptr.null ∧ s1 = s ∧
      (((size > 2 ^ MAX_ORDER ∨ size ≤ 0) ∧ out = "ERROR: invalid size \n") ∨
       (¬ (size > 2 ^ MAX_ORDER ∨ size ≤ 0) ∧ out = "" ∧
          ∀ k, size_order size ≤ k → k ≤ MAX_ORDER → s.free_area k = []))) ∨
    (¬ (size > 2 ^ MAX_ORDER ∨ size ≤ 0) ∧ out = "" ∧
      ∃ left rest, s.free_area (size_order size) = left :: rest ∧
        p = PAGE_TO_ADDR (s.g_pages left).Pageindex ∧
        s1 = takeFront s (size_order size) left) := by
  cases fuel with
  | zero => simp [buddy_alloc] at h
  | succ fuel =>
    by_cases hv : size > 2 ^ MAX_ORDER ∨ size ≤ 0
    · rw [buddy_alloc_invalid fuel s size hv] at h
      simp only [Option.some.injEq, Outcome.ret.injEq] at h
      obtain ⟨h1, h2, h3⟩ := h
      exact Or.inl ⟨h1.symm, h2.symm, Or.inl ⟨hv, h3.symm⟩⟩
    · have hle : size_order size ≤ MAX_ORDER := size_order_le size (by
        by_contra hc; exact hv (Or.inl (lt_of_not_ge hc)))
      cases hscan : firstNonEmpty s.free_area (size_order size)
          (MAX_ORDER + 1 - size_order size) with
      | none =>
        rw [buddy_alloc_nothing fuel s size hv hscan] at h
        simp only [Option.some.injEq, Outcome.ret.injEq] at h
        obtain ⟨h1, h2, h3⟩ := h
        refine Or.inl ⟨h1.symm, h2.symm, Or.inr ⟨hv, h3.symm, ?_⟩⟩
        intro k hk1 hk2
        exact (firstNonEmpty_none _ _ _).mp hscan k hk1 (by omega)
      | some i =>
        by_cases hi : i = size_order size
        · subst hi
          obtain ⟨_, _, hne, _⟩ := firstNonEmpty_some _ _ _ _ hscan
          obtain ⟨left, rest, hlist⟩ := List.exists_cons_of_ne_nil hne
          rw [buddy_alloc_exact fuel s size hv left rest hlist] at h
          simp only [Option.some.injEq, Outcome.ret.injEq] at h
          obtain ⟨h1, h2, h3⟩ := h
          exact Or.inr ⟨hv, h3.symm, left, rest, hlist, h1.symm, h2.symm⟩
        · rw [buddy_alloc_split s size hv i hscan hi] at h
          cases h

/-- A call that returns `NULL` has not written the globals. -/
theorem buddy_alloc_null_state (fuel : Nat) (s : State) (size : Int) (s1 : State)
    (out : String) (h : buddy_alloc fuel s size = some (Outcome.ret Ptr.null s1 out)) :
    s1 = s := by
  rcases buddy_alloc_returns fuel s size _ s1 out h with ⟨_, h2, _⟩ | ⟨_, _, left, rest, _, h3, _⟩
  · exact h2
  · simp [PAGE_TO_ADDR] at h3

/-! ### After `buddy_init` -/

/-- After `buddy_init()` the scan from any order stops at `MAX_ORDER`. -/
theorem firstNonEmpty_init (s0 : State) (o : Nat) (h1 : MIN_ORDER ≤ o) (h2 : o ≤ MAX_ORDER) :
    firstNonEmpty (buddy_init s0).free_area o (MAX_ORDER + 1 - o) = some MAX_ORDER := by
  simp only [MIN_ORDER, MAX_ORDER] at h1 h2
  interval_cases o <;>
    simp [firstNonEmpty, list_empty, buddy_init_free_area, MIN_ORDER, MAX_ORDER]

theorem size_order_small (size : Int) (h : size ≤ 2 ^ (MAX_ORDER - 1)) :
    size_order size ≤ MAX_ORDER - 1 := by
  simp only [size_order, orderLoop, MAX_ORDER, MIN_ORDER] at *
  norm_num at *
  split_ifs <;> omega

theorem valid_max : ¬ ((2 : Int) ^ MAX_ORDER > 2 ^ MAX_ORDER ∨ (2 : Int) ^ MAX_ORDER ≤ 0) := by
  simp [MAX_ORDER]

theorem buddy_alloc_init_max (s0 : State) (fuel : Nat) :
    buddy_alloc (fuel + 1) (buddy_init s0) (2 ^ MAX_ORDER)
      = some (Outcome.ret (Ptr.mem 0) (takeFront (buddy_init s0) MAX_ORDER 0) "") := by
  have hso : size_order ((2 : Int) ^ MAX_ORDER) = MAX_ORDER := by decide
  have hlist : (buddy_init s0).free_area (size_order ((2 : Int) ^ MAX_ORDER)) = 0 :: [] := by
    rw [hso, buddy_init_free_area]; simp
  rw [buddy_alloc_exact fuel _ _ valid_max 0 [] hlist, hso, buddy_init_g_pages]
  simp [PAGE_TO_ADDR]

theorem takeFront_init_free_area (s0 : State) (k : Nat) (h1 : MIN_ORDER ≤ k)
    (h2 : k ≤ MAX_ORDER) : (takeFront (buddy_init s0) MAX_ORDER 0).free_area k = [] := by
  simp only [takeFront, list_del_front]
  by_cases h : k = MAX_ORDER
  · subst h
    simp [buddy_init_free_area]
  · rw [Function.update_noteq h, buddy_init_free_area, if_neg h, if_pos ⟨h1, by omega⟩]

/-! ## Split on allocate -/

/-- Claim C1, evaluated on the code. Directly after `buddy_init()` the call
`buddy_alloc(4096)` (order `MIN_ORDER`, so every block has to be split) does not
return base with the right halves queued: no depth of nested calls lets it
return at all, whatever the globals were before `buddy_init()`. -/
theorem alloc_page_after_init_never_returns (s0 : State) (fuel : Nat) :
    buddy_alloc fuel (buddy_init s0) 4096 = none := by
  have hso : size_order 4096 = MIN_ORDER := by decide
  have hv : ¬ ((4096 : Int) > 2 ^ MAX_ORDER ∨ (4096 : Int) ≤ 0) := by
    simp [MAX_ORDER]
  have hscan := firstNonEmpty_init s0 MIN_ORDER (Nat.le_refl _) (by decide)
  rw [← hso] at hscan
  exact buddy_alloc_split _ _ hv MAX_ORDER hscan (by rw [hso]; decide) fuel

/-! ## Round trip -/

/-- Claim C2, evaluated on the code. After `buddy_init()`, the call
`buddy_alloc(1 << MAX_ORDER)` returns the region base; `buddy_free` of that
address then leaves the count that `buddy_dump` prints for order `MAX_ORDER`
at 0, while the baseline after `buddy_init()` is 1, so the printed text
differs from the baseline. -/
theorem round_trip_max_block_not_restored (s0 : State) (fuel : Nat) :
    ∃ s1, buddy_alloc (fuel + 1) (buddy_init s0) (2 ^ MAX_ORDER)
        = some (Outcome.ret (Ptr.mem 0) s1 "") ∧
      dumpCount (buddy_init s0) MAX_ORDER = 1 ∧
      dumpCount (buddy_free s1 (Ptr.mem 0)) MAX_ORDER = 0 ∧
      buddy_dump (buddy_init s0)
        = "0:4K 0:8K 0:16K 0:32K 0:64K 0:128K 0:256K 0:512K 1:1024K \n" ∧
      buddy_dump (buddy_free s1 (Ptr.mem 0))
        = "0:4K 0:8K 0:16K 0:32K 0:64K 0:128K 0:256K 0:512K 0:1024K \n" := by
  have hk : ∀ k, 12 ≤ k → k ≤ 20 → (takeFront (buddy_init s0) 20 0).free_area k = [] :=
    takeFront_init_free_area s0
  refine ⟨_, buddy_alloc_init_max s0 fuel, ?_, ?_, ?_, ?_⟩
  · simp [dumpCount, buddy_init_free_area]
  · simp [dumpCount, buddy_free, hk, MAX_ORDER]
  · simp [buddy_dump, dumpEntry, dumpCount, buddy_init_free_area, List.range_succ,
      MIN_ORDER, MAX_ORDER]
    rfl
  · simp [buddy_dump, dumpEntry, dumpCount, buddy_free, hk,
      List.range_succ, MIN_ORDER, MAX_ORDER]
    rfl

/-! ## Exhaustion -/

/-- Claim C3. After `buddy_init()` the first `buddy_alloc(1 << MAX_ORDER)`
returns the region base address (offset 0), and a second such call on the
resulting globals returns `NULL` without printing the invalid-size error and
without changing the globals. -/
theorem exhaustion (s0 : State) (fuel1 fuel2 : Nat) :
    ∃ s1, buddy_alloc (fuel1 + 1) (buddy_init s0) (2 ^ MAX_ORDER)
        = some (Outcome.ret (Ptr.mem 0) s1 "") ∧
      buddy_alloc (fuel2 + 1) s1 (2 ^ MAX_ORDER) = some (Outcome.ret Ptr.null s1 "") := by
  refine ⟨_, buddy_alloc_init_max s0 fuel1, ?_⟩
  apply buddy_alloc_nothing fuel2 _ _ valid_max
  rw [firstNonEmpty_none]
  intro k hk1 hk2
  have hso : size_order ((2 : Int) ^ MAX_ORDER) = MAX_ORDER := by decide
  rw [hso] at hk1 hk2
  exact takeFront_init_free_area s0 k (by simp only [MIN_ORDER, MAX_ORDER] at *; omega)
    (by simp only [MAX_ORDER] at *; omega)

/-! ## Size check -/

/-- Claim C4. In every state, a size with `size <= 0` or `size > 2^MAX_ORDER`
(in particular 0, -1 and `2^MAX_ORDER + 1`) makes `buddy_alloc` return `NULL`
after printing the invalid-size error, with the globals untouched; a size with
`0 < size <= 2^MAX_ORDER` is never answered with that error, and it is served
with an address whenever the list of its order has an entry. -/
theorem invalid_size_rejected (s : State) (fuel : Nat) :
    (∀ size : Int, size ≤ 0 ∨ size > 2 ^ MAX_ORDER →
      buddy_alloc (fuel + 1) s size
        = some (Outcome.ret Ptr.null s "ERROR: invalid size \n")) ∧
    buddy_alloc (fuel + 1) s 0 = some (Outcome.ret Ptr.null s "ERROR: invalid size \n") ∧
    buddy_alloc (fuel + 1) s (-1) = some (Outcome.ret Ptr.null s "ERROR: invalid size \n") ∧
    buddy_alloc (fuel + 1) s (2 ^ MAX_ORDER + 1)
      = some (Outcome.ret Ptr.null s "ERROR: invalid size \n") ∧
    (∀ size : Int, 0 < size → size ≤ 2 ^ MAX_ORDER →
      (∀ p s1 out, buddy_alloc fuel s size = some (Outcome.ret p s1 out) → out = "") ∧
      (s.free_area (size_order size) ≠ [] →
        ∃ a s1, buddy_alloc (fuel + 1) s size = some (Outcome.ret (Ptr.mem a) s1 ""))) := by
  refine ⟨fun size h => buddy_alloc_invalid fuel s size (Or.symm h),
    buddy_alloc_invalid fuel s 0 (Or.inr (le_refl 0)),
    buddy_alloc_invalid fuel s (-1) (Or.inr (by norm_num)),
    buddy_alloc_invalid fuel s _ (Or.inl (by norm_num)), ?_⟩
  intro size h1 h2
  have hv : ¬ (size > 2 ^ MAX_ORDER ∨ size ≤ 0) := by
    intro hc
    rcases hc with hc | hc
    · exact absurd h2 (not_le.mpr hc)
    · exact absurd h1 (not_lt.mpr hc)
  constructor
  · intro p s1 out h
    rcases buddy_alloc_returns fuel s size p s1 out h with ⟨_, _, h3⟩ | ⟨_, h3, _⟩
    · rcases h3 with ⟨hc, _⟩ | ⟨_, h4, _⟩
      · exact absurd hc hv
      · exact h4
    · exact h3
  · intro hne
    obtain ⟨left, rest, hlist⟩ := List.exists_cons_of_ne_nil hne
    exact ⟨_, _, buddy_alloc_exact fuel s size hv left rest hlist⟩

/-! ## Failed allocation -/

/-- Claim C5. Whenever `buddy_alloc(size)` returns `NULL`, for any state and
any integer size, the globals afterwards (every free list and every page
descriptor) are the globals before the call. -/
theorem failed_alloc_leaves_state (fuel : Nat) (s : State) (size : Int) (s1 : State)
    (out : String) (h : buddy_alloc fuel s size = some (Outcome.ret Ptr.null s1 out)) :
    s1.free_area = s.free_area ∧ s1.g_pages = s.g_pages := by
  rw [buddy_alloc_null_state fuel s size s1 out h]
  exact ⟨rfl, rfl⟩

theorem failed_alloc_leaves_state_witness :
    buddy_alloc 1 (buddy_init blank) 0
        = some (Outcome.ret Ptr.null (buddy_init blank) "ERROR: invalid size \n") ∧
      (buddy_init blank).free_area = (buddy_init blank).free_area ∧
      (buddy_init blank).g_pages = (buddy_init blank).g_pages :=
  ⟨buddy_alloc_invalid 0 _ 0 (Or.inr (le_refl 0)),
    failed_alloc_leaves_state 1 (buddy_init blank) 0 (buddy_init blank)
      "ERROR: invalid size \n" (buddy_alloc_invalid 0 _ 0 (Or.inr (le_refl 0)))⟩

/-! ## Out of memory -/

/-- Claim C6. For a size with `0 < size <= 2^MAX_ORDER` and computed order
`size_order size`: if the free lists of all orders from that order up to
`MAX_ORDER` are empty, `buddy_alloc` returns `NULL`; and whenever `buddy_alloc`
returns `NULL` for such a size, all those lists were empty. -/
theorem oom_iff_nothing_fits (s : State) (size : Int) (h1 : 0 < size)
    (h2 : size ≤ 2 ^ MAX_ORDER) :
    ((∀ k, size_order size ≤ k → k ≤ MAX_ORDER → s.free_area k = []) →
      ∀ fuel, buddy_alloc (fuel + 1) s size = some (Outcome.ret Ptr.null s "")) ∧
    (∀ fuel s1 out, buddy_alloc fuel s size = some (Outcome.ret Ptr.null s1 out) →
      ∀ k, size_order size ≤ k → k ≤ MAX_ORDER → s.free_area k = []) := by
  have hv : ¬ (size > 2 ^ MAX_ORDER ∨ size ≤ 0) := by
    intro hc
    rcases hc with hc | hc
    · exact absurd h2 (not_le.mpr hc)
    · exact absurd h1 (not_lt.mpr hc)
  constructor
  · intro hempty fuel
    apply buddy_alloc_nothing fuel s size hv
    rw [firstNonEmpty_none]
    intro k hk1 hk2
    exact hempty k hk1 (by omega)
  · intro fuel s1 out h
    rcases buddy_alloc_returns fuel s size _ s1 out h with
      ⟨_, _, h3⟩ | ⟨_, _, left, rest, _, h3, _⟩
    · rcases h3 with ⟨hc, _⟩ | ⟨_, _, h4⟩
      · exact absurd hc hv
      · exact h4
    · simp [PAGE_TO_ADDR] at h3

theorem oom_iff_nothing_fits_witness :
    (0 : Int) < 4096 ∧ (4096 : Int) ≤ 2 ^ MAX_ORDER ∧
    ((∀ k, size_order 4096 ≤ k → k ≤ MAX_ORDER → blank.free_area k = []) →
      ∀ fuel, buddy_alloc (fuel + 1) blank 4096 = some (Outcome.ret Ptr.null blank "")) ∧
    (∀ fuel s1 out, buddy_alloc fuel blank 4096 = some (Outcome.ret Ptr.null s1 out) →
      ∀ k, size_order 4096 ≤ k → k ≤ MAX_ORDER → blank.free_area k = []) :=
  ⟨by norm_num, by norm_num [MAX_ORDER],
    oom_iff_nothing_fits blank 4096 (by norm_num) (by norm_num [MAX_ORDER])⟩

/-! ## Termination -/

/-- Claim C7, evaluated on the code. The state right after `buddy_init()` is
reachable, and in it `buddy_alloc(size)` does not terminate for any size with
`0 < size <= 2^(MAX_ORDER-1)`: every bound on the depth of nested calls is
exceeded. -/
theorem alloc_after_init_diverges (s0 : State) (size : Int) (h1 : 0 < size)
    (h2 : size ≤ 2 ^ (MAX_ORDER - 1)) (fuel : Nat) :
    Reachable (buddy_init s0) ∧ buddy_alloc fuel (buddy_init s0) size = none := by
  refine ⟨Reachable.init s0, ?_⟩
  have hsmall := size_order_small size h2
  have h3 : size ≤ 2 ^ MAX_ORDER := by
    simp only [MAX_ORDER] at h2 ⊢
    norm_num at h2 ⊢
    omega
  have hv : ¬ (size > 2 ^ MAX_ORDER ∨ size ≤ 0) := by
    intro hc
    rcases hc with hc | hc
    · exact absurd h3 (not_le.mpr hc)
    · exact absurd h1 (not_lt.mpr hc)
  have hscan := firstNonEmpty_init s0 (size_order size) (size_order_ge size)
    (size_order_le size h3)
  refine buddy_alloc_split _ _ hv MAX_ORDER hscan ?_ fuel
  simp only [MAX_ORDER] at hsmall ⊢
  omega

theorem alloc_after_init_diverges_witness :
    (0 : Int) < 1 ∧ (1 : Int) ≤ 2 ^ (MAX_ORDER - 1) ∧
    Reachable (buddy_init blank) ∧ buddy_alloc 1000 (buddy_init blank) 1 = none :=
  ⟨by norm_num, by norm_num [MAX_ORDER],
    alloc_after_init_diverges blank 1 (by norm_num) (by norm_num [MAX_ORDER]) 1000⟩

/-! ## Alignment -/

theorem takeFront_Pageindex (s : State) (o left p : Nat) :
    ((takeFront s o left).g_pages p).Pageindex = (s.g_pages p).Pageindex := by
  simp only [takeFront]
  by_cases h : p = left
  · subst h; simp
  · rw [Function.update_noteq h]

theorem takeFront_mem (s : State) (o left k p : Nat)
    (h : p ∈ (takeFront s o left).free_area k) : p ∈ s.free_area k := by
  simp only [takeFront, list_del_front] at h
  by_cases hk : k = o
  · subst hk
    rw [Function.update_same] at h
    exact List.mem_of_mem_tail h
  · rwa [Function.update_noteq hk] at h

theorem alignedLists_init (s0 : State) : AlignedLists (buddy_init s0) := by
  intro k hk1 hk2 p hp
  rw [buddy_init_free_area] at hp
  by_cases h : k = MAX_ORDER
  · rw [if_pos h] at hp
    have hp0 : p = 0 := by simpa using hp
    subst hp0
    rw [buddy_init_g_pages]
    simp
  · rw [if_neg h, if_pos ⟨hk1, by omega⟩] at hp
    cases hp

theorem alignedLists_takeFront (s : State) (o left : Nat) (h : AlignedLists s) :
    AlignedLists (takeFront s o left) := by
  intro k hk1 hk2 p hp
  rw [takeFront_Pageindex]
  exact h k hk1 hk2 p (takeFront_mem s o left k p hp)

theorem alignedLists_reachable (s : State) (h : Reachable s) : AlignedLists s := by
  induction h with
  | init s0 => exact alignedLists_init s0
  | alloc fuel size p out _ hcall ih =>
    rcases buddy_alloc_returns fuel _ size p _ out hcall with
      ⟨_, h2, _⟩ | ⟨_, _, left, rest, _, _, h3⟩
    · rw [h2]; exact ih
    · rw [h3]; exact alignedLists_takeFront _ _ _ ih
  | free addr _ ih => exact ih

/-- Claim C8. In every state reachable from `buddy_init()`, whenever
`buddy_alloc(size)` returns an address `g_memory + a`, the offset `a` is a
multiple of `2^o`, for `o` the least order `>= MIN_ORDER` with `2^o >= size`. -/
theorem alloc_result_aligned (s : State) (hr : Reachable s) (fuel : Nat) (size a : Int)
    (s1 : State) (out : String)
    (h : buddy_alloc fuel s size = some (Outcome.ret (Ptr.mem a) s1 out))
    (o : Nat) (ho : MIN_ORDER ≤ o) (hfit : size ≤ 2 ^ o)
    (hmin : ∀ k : Nat, MIN_ORDER ≤ k → size ≤ 2 ^ k → o ≤ k) :
    (2 : Int) ^ o ∣ a := by
  rcases buddy_alloc_returns fuel s size _ s1 out h with
    ⟨h1, _, _⟩ | ⟨hv, _, left, rest, hlist, h3, _⟩
  · cases h1
  · have hle : size ≤ 2 ^ MAX_ORDER := by
      by_contra hc; exact hv (Or.inl (lt_of_not_ge hc))
    have hso : o = size_order size := size_order_unique size hle o ho hfit hmin
    have hal := alignedLists_reachable s hr (size_order size) (size_order_ge size)
      (size_order_le size hle) left (by rw [hlist]; exact List.mem_cons_self _ _)
    simp only [PAGE_TO_ADDR, Ptr.mem.injEq] at h3
    rw [hso, h3]
    exact hal

theorem alloc_result_aligned_witness :
    Reachable (buddy_init blank) ∧
    buddy_alloc 1 (buddy_init blank) (2 ^ MAX_ORDER)
      = some (Outcome.ret (Ptr.mem 0) (takeFront (buddy_init blank) MAX_ORDER 0) "") ∧
    (2 : Int) ^ MAX_ORDER ∣ 0 :=
  ⟨Reachable.init blank, buddy_alloc_init_max blank 0,
    alloc_result_aligned (buddy_init blank) (Reachable.init blank) 1 (2 ^ MAX_ORDER) 0
      (takeFront (buddy_init blank) MAX_ORDER 0) "" (buddy_alloc_init_max blank 0)
      MAX_ORDER (by decide) (le_refl _)
      (fun k hk hfit => by
        have h := size_order_least ((2 : Int) ^ MAX_ORDER) k hk hfit
        have hso : size_order ((2 : Int) ^ MAX_ORDER) = MAX_ORDER := by decide
        rwa [hso] at h)⟩

/-! ## No overlap -/

theorem recordedOrder_page (s : State) (q : Nat) (hq : q < n_pages) :
    recordedOrder s ((q : Int) * PAGE_SIZE) = (s.g_pages q).blockSize.toNat := by
  have h : ((((q : Int) * (PAGE_SIZE : Int)) % 2 ^ 64).toNat) / PAGE_SIZE = q := by
    simp only [n_pages, PAGE_SIZE, MAX_ORDER, MIN_ORDER] at hq ⊢
    norm_num at hq ⊢
    have h1 : ((q : Int) * 4096) % 18446744073709551616 = ((q * 4096 : Nat) : Int) := by
      push_cast
      omega
    rw [h1, Int.toNat_ofNat]
    omega
  rw [recordedOrder, h]

theorem rangesDisjoint_irrefl (a : Int) (o o2 : Nat) : ¬ rangesDisjoint a o a o2 := by
  intro h
  have h1 : (0 : Int) < 2 ^ o := by positivity
  have h2 : (0 : Int) < 2 ^ o2 := by positivity
  rcases h with h | h <;> omega

theorem freeDisjoint_init (t : State) : FreeDisjoint (buddy_init t) := by
  have hlow : ∀ k, MIN_ORDER ≤ k → k ≤ MAX_ORDER → k ≠ MAX_ORDER →
      (buddy_init t).free_area k = [] := by
    intro k hk1 hk2 hk3
    rw [buddy_init_free_area, if_neg hk3, if_pos ⟨hk1, by omega⟩]
  have hmax : (buddy_init t).free_area MAX_ORDER = [0] := by
    rw [buddy_init_free_area]; simp
  refine ⟨?_, ?_, ?_⟩
  · intro k hk1 hk2 p hp
    by_cases hk : k = MAX_ORDER
    · subst hk
      rw [hmax] at hp
      have hp0 : p = 0 := by simpa using hp
      subst hp0
      rw [buddy_init_g_pages]
      exact ⟨by decide, by simp⟩
    · rw [hlow k hk1 hk2 hk] at hp
      cases hp
  · intro k hk1 hk2
    by_cases hk : k = MAX_ORDER
    · subst hk
      rw [hmax]
      exact List.pairwise_singleton _ _
    · rw [hlow k hk1 hk2 hk]
      exact List.Pairwise.nil
  · intro k k2 hk1 hk2 hk3 hk4 hne p hp q hq
    by_cases hk : k = MAX_ORDER
    · have hk5 : k2 ≠ MAX_ORDER := fun h => hne (hk.trans h.symm)
      rw [hlow k2 hk3 hk4 hk5] at hq
      cases hq
    · rw [hlow k hk1 hk2 hk] at hp
      cases hp

/-- The exact-order branch keeps the free blocks disjoint, and the block it
hands out is disjoint from every block that is live and from every block that
stays free. -/
theorem alloc_step_disjoint (s : State) (o left : Nat) (rest : List Nat) (live : List Int)
    (ho1 : MIN_ORDER ≤ o) (ho2 : o ≤ MAX_ORDER) (hlist : s.free_area o = left :: rest)
    (hF : FreeDisjoint s) (hL : LiveDisjoint s live) :
    FreeDisjoint (takeFront s o left) ∧
      LiveDisjoint (takeFront s o left) ((left : Int) * PAGE_SIZE :: live) := by
  obtain ⟨hF1, hF2, hF3⟩ := hF
  obtain ⟨hL1, hL2⟩ := hL
  have hmem : left ∈ s.free_area o := by rw [hlist]; exact List.mem_cons_self _ _
  have hleft : left < n_pages := (hF1 o ho1 ho2 left hmem).1
  have hpw := hF2 o ho1 ho2
  rw [hlist, List.pairwise_cons] at hpw
  have hrest : (takeFront s o left).free_area o = rest := by
    simp [takeFront, list_del_front, hlist]
  -- the order recorded for the block handed out, and for the blocks already live
  have hnew : recordedOrder (takeFront s o left) ((left : Int) * PAGE_SIZE) = o := by
    rw [recordedOrder_page _ _ hleft]
    simp [takeFront]
  have hold : ∀ b ∈ live,
      recordedOrder (takeFront s o left) b = recordedOrder s b := by
    intro b hb
    obtain ⟨q, hq, hbq, hfree⟩ := hL1 b hb
    have hne : q ≠ left := by
      intro h
      subst h
      have := hfree o ho1 ho2 q hmem
      rw [hbq] at this
      exact rangesDisjoint_irrefl _ _ _ this
    rw [hbq, recordedOrder_page _ _ hq, recordedOrder_page _ _ hq]
    simp only [takeFront]
    rw [Function.update_noteq hne]
  -- the block handed out against the blocks that stay free
  have hnewfree : ∀ k, MIN_ORDER ≤ k → k ≤ MAX_ORDER → ∀ p ∈ (takeFront s o left).free_area k,
      rangesDisjoint ((left : Int) * PAGE_SIZE) o ((p : Int) * PAGE_SIZE) k := by
    intro k hk1 hk2 p hp
    by_cases hk : k = o
    · subst hk
      rw [hrest] at hp
      exact hpw.1 p hp
    · exact hF3 o k ho1 ho2 hk1 hk2 (fun h => hk h.symm) left hmem p
        (takeFront_mem s o left k p hp)
  refine ⟨⟨?_, ?_, ?_⟩, ?_, ?_⟩
  · intro k hk1 hk2 p hp
    rw [takeFront_Pageindex]
    exact hF1 k hk1 hk2 p (takeFront_mem s o left k p hp)
  · intro k hk1 hk2
    by_cases hk : k = o
    · subst hk
      rw [hrest]
      exact hpw.2
    · have : (takeFront s o left).free_area k = s.free_area k := by
        simp only [takeFront, list_del_front]
        rw [Function.update_noteq hk]
      rw [this]
      exact hF2 k hk1 hk2
  · intro k k2 hk1 hk2 hk3 hk4 hne p hp q hq
    exact hF3 k k2 hk1 hk2 hk3 hk4 hne p (takeFront_mem s o left k p hp) q
      (takeFront_mem s o left k2 q hq)
  · intro b hb
    rcases List.mem_cons.mp hb with hb | hb
    · subst hb
      refine ⟨left, hleft, rfl, ?_⟩
      intro k hk1 hk2 p hp
      rw [hnew]
      exact hnewfree k hk1 hk2 p hp
    · obtain ⟨q, hq, hbq, hfree⟩ := hL1 b hb
      refine ⟨q, hq, hbq, ?_⟩
      intro k hk1 hk2 p hp
      rw [hold b hb]
      exact hfree k hk1 hk2 p (takeFront_mem s o left k p hp)
  · rw [List.pairwise_cons]
    constructor
    · intro b hb
      obtain ⟨q, hq, hbq, hfree⟩ := hL1 b hb
      have h := hfree o ho1 ho2 left hmem
      rw [disjointBlocks, hnew, hold b hb]
      exact Or.symm h
    · refine List.Pairwise.imp_of_mem ?_ hL2
      intro b c hb hc h
      rw [disjointBlocks, hold b hb, hold c hc]
      exact h

/-- Along a run from a state with disjoint free blocks, the free blocks stay
disjoint and the live blocks are disjoint from them and from each other. -/
theorem runFrom_disjoint (s0 s : State) (live : List Int) (h0 : FreeDisjoint s0)
    (h : RunFrom s0 s live) : FreeDisjoint s ∧ LiveDisjoint s live := by
  induction h with
  | start =>
    exact ⟨h0, fun a ha => absurd ha (List.not_mem_nil a), List.Pairwise.nil⟩
  | alloc fuel size a out _ hcall ih =>
    rcases buddy_alloc_returns fuel _ size _ _ out hcall with
      ⟨h1, _, _⟩ | ⟨hv, _, left, rest, hlist, h3, h4⟩
    · cases h1
    · have hle : size ≤ 2 ^ MAX_ORDER := by
        by_contra hc; exact hv (Or.inl (lt_of_not_ge hc))
      have hmem : left ∈ left :: rest := List.mem_cons_self left rest
      rw [← hlist] at hmem
      have hidx := (ih.1.1 (size_order size) (size_order_ge size) (size_order_le size hle)
        left hmem).2
      simp only [PAGE_TO_ADDR, Ptr.mem.injEq] at h3
      rw [hidx] at h3
      rw [h3, h4]
      exact alloc_step_disjoint _ _ left rest _ (size_order_ge size)
        (size_order_le size hle) hlist ih.1 ih.2
  | allocNull fuel size out _ hcall ih =>
    rw [buddy_alloc_null_state fuel _ size _ out hcall]
    exact ih
  | free a _ ih =>
    refine ⟨ih.1, ?_, ?_⟩
    · intro b hb
      exact ih.2.1 b (List.mem_filter.mp hb).1
    · exact List.Pairwise.filter _ ih.2.2
  | freeNull _ ih => exact ih

/-- Claim C9. Along every sequence of `buddy_alloc` / `buddy_free` calls that
starts from `buddy_init()`, and more generally from any state whose free lists
hold pairwise disjoint blocks, any two blocks that have been returned by
`buddy_alloc` and not yet passed to `buddy_free` occupy disjoint byte ranges
`[a, a + 2^o)`, with `o` the order recorded in the descriptor of the block. -/
theorem live_blocks_disjoint (s0 s : State) (live : List Int)
    (h0 : (∃ t, s0 = buddy_init t) ∨ FreeDisjoint s0) (h : RunFrom s0 s live) :
    live.Pairwise (disjointBlocks s) := by
  have hF : FreeDisjoint s0 := by
    rcases h0 with ⟨t, ht⟩ | h0
    · rw [ht]; exact freeDisjoint_init t
    · exact h0
  exact (runFrom_disjoint s0 s live hF h).2.2

theorem splitState_free_area (k : Nat) (hk1 : MIN_ORDER ≤ k) (hk2 : k ≤ MAX_ORDER) :
    splitState.free_area k
      = if k = 12 then [0, 1] else if k = 20 then [] else [2 ^ (k - 12)] := by
  simp only [MIN_ORDER, MAX_ORDER] at hk1 hk2
  interval_cases k <;> simp [splitState]

theorem freeDisjoint_splitState : FreeDisjoint splitState := by
  refine ⟨?_, ?_, ?_⟩
  · intro k hk1 hk2 p hp
    refine ⟨?_, rfl⟩
    rw [splitState_free_area k hk1 hk2] at hp
    simp only [MIN_ORDER, MAX_ORDER] at hk1 hk2
    interval_cases k <;> simp [n_pages, PAGE_SIZE, MAX_ORDER, MIN_ORDER] at hp ⊢ <;> omega
  · intro k hk1 hk2
    rw [splitState_free_area k hk1 hk2]
    simp only [MIN_ORDER, MAX_ORDER] at hk1 hk2
    interval_cases k <;> simp [rangesDisjoint, PAGE_SIZE, MIN_ORDER]
  · intro k k2 hk1 hk2 hk3 hk4 hne p hp q hq
    rw [splitState_free_area k hk1 hk2] at hp
    rw [splitState_free_area k2 hk3 hk4] at hq
    simp only [MIN_ORDER, MAX_ORDER] at hk1 hk2 hk3 hk4
    interval_cases k <;> interval_cases k2 <;>
      simp [rangesDisjoint, PAGE_SIZE, MIN_ORDER] at hne hp hq ⊢ <;>
      omega

theorem valid_page : ¬ ((4096 : Int) > 2 ^ MAX_ORDER ∨ (4096 : Int) ≤ 0) := by
  simp [MAX_ORDER]

theorem buddy_alloc_split_first :
    buddy_alloc 1 splitState 4096
      = some (Outcome.ret (Ptr.mem 0) (takeFront splitState 12 0) "") := by
  have hso : size_order 4096 = 12 := by decide
  have hlist : splitState.free_area (size_order 4096) = 0 :: [1] := by
    rw [hso]; rfl
  rw [buddy_alloc_exact 0 splitState 4096 valid_page 0 [1] hlist, hso]
  simp [PAGE_TO_ADDR, splitState]

theorem buddy_alloc_split_second :
    buddy_alloc 1 (takeFront splitState 12 0) 4096
      = some (Outcome.ret (Ptr.mem 4096) (takeFront (takeFront splitState 12 0) 12 1) "") := by
  have hso : size_order 4096 = 12 := by decide
  have hlist : (takeFront splitState 12 0).free_area (size_order 4096) = 1 :: [] := by
    rw [hso]; simp [takeFront, list_del_front, splitState]
  rw [buddy_alloc_exact 0 _ 4096 valid_page 1 [] hlist, hso]
  simp [PAGE_TO_ADDR, takeFront, splitState, PAGE_SIZE, MIN_ORDER]

theorem live_blocks_disjoint_witness :
    FreeDisjoint splitState ∧
    RunFrom splitState (takeFront (takeFront splitState 12 0) 12 1) [4096, 0] ∧
    [(4096 : Int), 0].Pairwise
      (disjointBlocks (takeFront (takeFront splitState 12 0) 12 1)) ∧
    recordedOrder (takeFront (takeFront splitState 12 0) 12 1) 4096 = 12 ∧
    recordedOrder (takeFront (takeFront splitState 12 0) 12 1) 0 = 12 :=
  ⟨freeDisjoint_splitState,
    RunFrom.alloc 1 4096 4096 "" (RunFrom.alloc 1 4096 0 "" RunFrom.start
      buddy_alloc_split_first) buddy_alloc_split_second,
    live_blocks_disjoint splitState _ [4096, 0] (Or.inr freeDisjoint_splitState)
      (RunFrom.alloc 1 4096 4096 "" (RunFrom.alloc 1 4096 0 "" RunFrom.start
        buddy_alloc_split_first) buddy_alloc_split_second),
    by decide, by decide⟩

/-! ## Initialisation -/

/-- Claim C10. After `buddy_init()`, from any prior state: descriptor `i` has
page index `i` for every `i < n_pages`; every descriptor but page 0 has order
`-1` and page 0 has order `MAX_ORDER`; the free lists of orders
`MIN_ORDER..MAX_ORDER-1` are empty and the list of order `MAX_ORDER` holds
exactly page 0. Hence `buddy_init()` is idempotent, and the descriptors and
free lists it leaves are the same for any two prior states. -/
theorem init_baseline (s : State) :
    (∀ i, i < n_pages → ((buddy_init s).g_pages i).Pageindex = (i : Int)) ∧
    (∀ i, 0 < i → i < n_pages → ((buddy_init s).g_pages i).blockSize = -1) ∧
    ((buddy_init s).g_pages 0).blockSize = (MAX_ORDER : Int) ∧
    (∀ o, MIN_ORDER ≤ o → o < MAX_ORDER → (buddy_init s).free_area o = []) ∧
    (buddy_init s).free_area MAX_ORDER = [0] ∧
    buddy_init (buddy_init s) = buddy_init s ∧
    (∀ s2 : State,
      (∀ i, i < n_pages → (buddy_init s2).g_pages i = (buddy_init s).g_pages i) ∧
      (∀ o, MIN_ORDER ≤ o → o ≤ MAX_ORDER →
        (buddy_init s2).free_area o = (buddy_init s).free_area o)) := by
  refine ⟨?_, ?_, ?_, ?_, ?_, ?_, ?_⟩
  · intro i hi
    rw [buddy_init_g_pages]
    by_cases h0 : i = 0
    · subst h0; simp
    · simp [h0, hi]
  · intro i h0 hi
    rw [buddy_init_g_pages]
    simp [Nat.pos_iff_ne_zero.mp h0, hi]
  · rw [buddy_init_g_pages]; simp
  · intro o h1 h2
    rw [buddy_init_free_area, if_neg (by omega), if_pos ⟨h1, h2⟩]
  · rw [buddy_init_free_area]; simp
  · have hfa : (buddy_init (buddy_init s)).free_area = (buddy_init s).free_area := by
      funext o
      rw [buddy_init_free_area (buddy_init s) o, buddy_init_free_area s o]
      split_ifs <;> rfl
    have hg : (buddy_init (buddy_init s)).g_pages = (buddy_init s).g_pages := by
      funext i
      rw [buddy_init_g_pages (buddy_init s) i, buddy_init_g_pages s i]
      split_ifs <;> rfl
    calc buddy_init (buddy_init s)
        = ⟨(buddy_init (buddy_init s)).free_area, (buddy_init (buddy_init s)).g_pages⟩ := rfl
      _ = ⟨(buddy_init s).free_area, (buddy_init s).g_pages⟩ := by rw [hfa, hg]
  · intro s2
    constructor
    · intro i hi
      rw [buddy_init_g_pages s2 i, buddy_init_g_pages s i]
      simp [hi]
    · intro o h1 h2
      rw [buddy_init_free_area s2 o, buddy_init_free_area s o]
      by_cases h : o = MAX_ORDER
      · simp [h]
      · rw [if_neg h, if_neg h, if_pos ⟨h1, by omega⟩, if_pos ⟨h1, by omega⟩]

/-! ## Dump -/

theorem dumpCount_eq_length (s : State) (o : Nat) :
    dumpCount s o = (s.free_area o).length := by
  have key : ∀ (l : List Nat) (n : Nat), l.foldl (fun cnt _ => cnt + 1) n = n + l.length := by
    intro l
    induction l with
    | nil => intro n; rfl
    | cons a l ih =>
      intro n
      rw [List.foldl_cons, ih, List.length_cons]
      omega
  rw [dumpCount, key, Nat.zero_add]

/-- Claim C11. For every state, `buddy_dump()` writes no global and prints, for
the orders `MIN_ORDER..MAX_ORDER` in ascending order, the text
`<count>:<2^o/1024>K ` with `count` the number of entries of the list of order
`o`, then one newline; the nine labels are `4K` .. `1024K`. Directly after
`buddy_init()` the text is `0:4K 0:8K .. 0:512K 1:1024K ` and a newline. -/
theorem dump_format (s : State) :
    buddy_dump_globals s = s ∧
    buddy_dump s = String.join ((List.range (MAX_ORDER + 1 - MIN_ORDER)).map (fun k =>
      toString (s.free_area (MIN_ORDER + k)).length ++ ":"
        ++ toString (2 ^ (MIN_ORDER + k) / 1024) ++ "K ")) ++ "\n" ∧
    (List.range (MAX_ORDER + 1 - MIN_ORDER)).map
        (fun k => toString (2 ^ (MIN_ORDER + k) / 1024) ++ "K ")
      = ["4K ", "8K ", "16K ", "32K ", "64K ", "128K ", "256K ", "512K ", "1024K "] ∧
    buddy_dump (buddy_init s)
      = "0:4K 0:8K 0:16K 0:32K 0:64K 0:128K 0:256K 0:512K 1:1024K \n" := by
  refine ⟨rfl, ?_, by decide, ?_⟩
  · simp only [buddy_dump, String.join, List.foldl_map, dumpEntry, dumpCount_eq_length]
  · simp [buddy_dump, dumpEntry, dumpCount, buddy_init_free_area, List.range_succ,
      MIN_ORDER, MAX_ORDER]
    rfl

/-! ## Order computation -/

/-- Once the loop condition is false, further iterations change nothing. -/
theorem orderLoop_stable (size : Int) (n m so : Nat)
    (h : ¬ (orderLoop size n so ≤ MAX_ORDER ∧ (2 : Int) ^ orderLoop size n so < size)) :
    orderLoop size (n + m) so = orderLoop size n so := by
  induction n generalizing so with
  | zero =>
    have h0 : ¬ (so ≤ MAX_ORDER ∧ (2 : Int) ^ so < size) := by simpa [orderLoop] using h
    cases m with
    | zero => rfl
    | succ m =>
      show orderLoop size (0 + (m + 1)) so = so
      rw [Nat.zero_add, orderLoop, if_neg h0]
  | succ n ih =>
    have e1 : orderLoop size (n + 1 + m) so
        = if so ≤ MAX_ORDER ∧ (2 : Int) ^ so < size then orderLoop size (n + m) (so + 1)
          else so := by
      rw [Nat.add_right_comm, orderLoop]
    have e2 : orderLoop size (n + 1) so
        = if so ≤ MAX_ORDER ∧ (2 : Int) ^ so < size then orderLoop size n (so + 1)
          else so := by
      rw [orderLoop]
    rw [e2] at h
    rw [e1, e2]
    by_cases hc : so ≤ MAX_ORDER ∧ (2 : Int) ^ so < size
    · rw [if_pos hc] at h
      rw [if_pos hc, if_pos hc]
      exact ih (so + 1) h
    · rw [if_neg hc, if_neg hc]

/-- Claim C13. For `0 < size <= 2^MAX_ORDER` the order loop of `buddy_alloc`
stops (more iterations than the model allows give the same value, and the loop
condition is false there) with `size_order` the least `o >= MIN_ORDER` with
`2^o >= size`. So `MIN_ORDER <= size_order <= MAX_ORDER`, every size up to
`2^MIN_ORDER` (in particular `2^MIN_ORDER` and `2^MIN_ORDER - 1`) has order
`MIN_ORDER`, and `2^o + 1` has order `o + 1` for `MIN_ORDER <= o < MAX_ORDER`. -/
theorem order_computation (size : Int) (h1 : 0 < size) (h2 : size ≤ 2 ^ MAX_ORDER) :
    (∀ m, orderLoop size (MAX_ORDER + 1 - MIN_ORDER + m) MIN_ORDER = size_order size) ∧
    ¬ (size_order size ≤ MAX_ORDER ∧ (2 : Int) ^ size_order size < size) ∧
    MIN_ORDER ≤ size_order size ∧ size_order size ≤ MAX_ORDER ∧
    size ≤ 2 ^ size_order size ∧
    (∀ o : Nat, MIN_ORDER ≤ o → size ≤ 2 ^ o → size_order size ≤ o) ∧
    (size ≤ 2 ^ MIN_ORDER → size_order size = MIN_ORDER) ∧
    size_order (2 ^ MIN_ORDER) = MIN_ORDER ∧ size_order (2 ^ MIN_ORDER - 1) = MIN_ORDER ∧
    (∀ o : Nat, MIN_ORDER ≤ o → o < MAX_ORDER → size_order (2 ^ o + 1) = o + 1) := by
  have _ := h1
  refine ⟨fun m => orderLoop_stable size _ m MIN_ORDER (size_order_exit size),
    size_order_exit size, size_order_ge size, size_order_le size h2,
    size_order_fits size h2, size_order_least size, ?_, by decide, by decide, ?_⟩
  · intro h
    exact Nat.le_antisymm (size_order_least size MIN_ORDER (Nat.le_refl _) h)
      (size_order_ge size)
  · intro o ho1 ho2
    simp only [MIN_ORDER, MAX_ORDER] at ho1 ho2
    interval_cases o <;> decide

theorem order_computation_witness :
    (∀ m, orderLoop 5000 (MAX_ORDER + 1 - MIN_ORDER + m) MIN_ORDER = size_order 5000) ∧
    ¬ (size_order 5000 ≤ MAX_ORDER ∧ (2 : Int) ^ size_order 5000 < 5000) ∧
    MIN_ORDER ≤ size_order 5000 ∧ size_order 5000 ≤ MAX_ORDER ∧
    (5000 : Int) ≤ 2 ^ size_order 5000 ∧
    (∀ o : Nat, MIN_ORDER ≤ o → (5000 : Int) ≤ 2 ^ o → size_order 5000 ≤ o) ∧
    ((5000 : Int) ≤ 2 ^ MIN_ORDER → size_order 5000 = MIN_ORDER) ∧
    size_order (2 ^ MIN_ORDER) = MIN_ORDER ∧ size_order (2 ^ MIN_ORDER - 1) = MIN_ORDER ∧
    (∀ o : Nat, MIN_ORDER ≤ o → o < MAX_ORDER → size_order (2 ^ o + 1) = o + 1) :=
  order_computation 5000 (by norm_num) (by norm_num [MAX_ORDER])

/-! ## Exact-order allocation -/

/-- Claim C14. For every state and every size with `0 < size <= 2^MAX_ORDER`
and computed order `o`: if the list of order `o` has front entry `left`
(`list_add` puts the latest entry at the front), `buddy_alloc(size)` returns
`g_memory + left->Pageindex * PAGE_SIZE`, the list of order `o` becomes its
remaining entries in their order, the order recorded on `left` becomes `o`,
and every other list, the page index of `left` and every other descriptor are
unchanged. -/
theorem exact_order_alloc (s : State) (size : Int) (h1 : 0 < size)
    (h2 : size ≤ 2 ^ MAX_ORDER) (left : Nat) (rest : List Nat)
    (hlist : s.free_area (size_order size) = left :: rest) (fuel : Nat) :
    ∃ s1, buddy_alloc (fuel + 1) s size
        = some (Outcome.ret (Ptr.mem ((s.g_pages left).Pageindex * PAGE_SIZE)) s1 "") ∧
      s1.free_area (size_order size) = rest ∧
      (∀ k, k ≠ size_order size → s1.free_area k = s.free_area k) ∧
      (s1.g_pages left).blockSize = (size_order size : Int) ∧
      (s1.g_pages left).Pageindex = (s.g_pages left).Pageindex ∧
      (∀ p, p ≠ left → s1.g_pages p = s.g_pages p) ∧
      (∀ (fa : Nat → List Nat) (p o : Nat), list_add fa p o o = p :: fa o) := by
  have hv : ¬ (size > 2 ^ MAX_ORDER ∨ size ≤ 0) := by
    intro hc
    rcases hc with hc | hc
    · exact absurd h2 (not_le.mpr hc)
    · exact absurd h1 (not_lt.mpr hc)
  refine ⟨takeFront s (size_order size) left,
    buddy_alloc_exact fuel s size hv left rest hlist, ?_, ?_, ?_, ?_, ?_, ?_⟩
  · simp [takeFront, list_del_front, hlist]
  · intro k hk
    simp only [takeFront, list_del_front]
    rw [Function.update_noteq hk]
  · simp [takeFront]
  · simp [takeFront]
  · intro p hp
    simp only [takeFront]
    rw [Function.update_noteq hp]
  · intro fa p o
    simp [list_add]

theorem exact_order_alloc_witness :
    ∃ s1, buddy_alloc 1 (buddy_init blank) (2 ^ MAX_ORDER)
        = some (Outcome.ret
            (Ptr.mem (((buddy_init blank).g_pages 0).Pageindex * PAGE_SIZE)) s1 "") ∧
      s1.free_area (size_order (2 ^ MAX_ORDER)) = [] ∧
      (∀ k, k ≠ size_order (2 ^ MAX_ORDER) → s1.free_area k = (buddy_init blank).free_area k) ∧
      (s1.g_pages 0).blockSize = (size_order (2 ^ MAX_ORDER) : Int) ∧
      (s1.g_pages 0).Pageindex = ((buddy_init blank).g_pages 0).Pageindex ∧
      (∀ p, p ≠ 0 → s1.g_pages p = (buddy_init blank).g_pages p) ∧
      (∀ (fa : Nat → List Nat) (p o : Nat), list_add fa p o o = p :: fa o) :=
  exact_order_alloc (buddy_init blank) (2 ^ MAX_ORDER) (by norm_num)
    (le_refl _) 0 [] (by
      have hso : size_order ((2 : Int) ^ MAX_ORDER) = MAX_ORDER := by decide
      rw [hso, buddy_init_free_area]; simp) 0

/-! ## Address and page index -/

/-- Claim C19. For a page index `i < n_pages`, `ADDR_TO_PAGE(PAGE_TO_ADDR(i))`
is `i` and `PAGE_TO_ADDR(i)` is the address at offset `i * PAGE_SIZE`, inside
the region. For an offset `x < 2^MAX_ORDER`, `ADDR_TO_PAGE(g_memory + x)` is
`x / PAGE_SIZE`, below `n_pages`, and converting that index back gives
`g_memory + x` exactly when `x` is a multiple of `PAGE_SIZE`. -/
theorem page_addr_round_trip (i x : Nat) (hi : i < n_pages) (hx : x < 2 ^ MAX_ORDER) :
    ADDR_TO_PAGE (PAGE_TO_ADDR i) = some i ∧
    PAGE_TO_ADDR i = Ptr.mem ((i * PAGE_SIZE : Nat) : Int) ∧
    i * PAGE_SIZE < 2 ^ MAX_ORDER ∧
    ADDR_TO_PAGE (Ptr.mem x) = some (x / PAGE_SIZE) ∧
    x / PAGE_SIZE < n_pages ∧
    (PAGE_TO_ADDR ((x / PAGE_SIZE : Nat) : Int) = Ptr.mem x ↔ PAGE_SIZE ∣ x) := by
  simp only [n_pages, PAGE_SIZE, MAX_ORDER, MIN_ORDER, ADDR_TO_PAGE, PAGE_TO_ADDR] at *
  norm_num at hi hx ⊢
  refine ⟨?_, by omega, ?_, by omega, ?_⟩
  · have h : ((i : Int) * 4096) % 18446744073709551616 = ((i * 4096 : Nat) : Int) := by
      push_cast
      omega
    rw [h, Int.toNat_ofNat]
    omega
  · have h : (x : Int) % 18446744073709551616 = (x : Int) := by omega
    rw [h, Int.toNat_ofNat]
  · constructor
    · intro h
      have h3 : (x / 4096) * 4096 = x := by exact_mod_cast h
      omega
    · intro h
      have h3 : (x / 4096) * 4096 = x := by omega
      exact_mod_cast h3

theorem page_addr_round_trip_witness :
    ADDR_TO_PAGE (PAGE_TO_ADDR (3 : Nat)) = some 3 ∧
    PAGE_TO_ADDR (3 : Nat) = Ptr.mem ((3 * PAGE_SIZE : Nat) : Int) ∧
    3 * PAGE_SIZE < 2 ^ MAX_ORDER ∧
    ADDR_TO_PAGE (Ptr.mem (5000 : Nat)) = some (5000 / PAGE_SIZE) ∧
    5000 / PAGE_SIZE < n_pages ∧
    (PAGE_TO_ADDR ((5000 / PAGE_SIZE : Nat) : Int) = Ptr.mem (5000 : Nat) ↔ PAGE_SIZE ∣ 5000) :=
  page_addr_round_trip 3 5000 (by decide) (by decide)

/-! ## Buddy address -/

set_option maxRecDepth 100000 in
/-- The arithmetic of `x ^ (1<<o)` for every order `12 <= o < 20` and every
multiple `x = 2^o * m` below `2^20`, by evaluation. -/
theorem xor_order_bit_cases : ∀ o < 20, 12 ≤ o → ∀ m < 2 ^ (20 - o),
    ((2 ^ o * m) ^^^ 2 ^ o)
      = (if (2 ^ o * m).testBit o then 2 ^ o * m - 2 ^ o else 2 ^ o * m + 2 ^ o) ∧
    ((2 ^ o * m).testBit o = true → 2 ^ o ≤ 2 ^ o * m) ∧
    ((2 ^ o * m) ^^^ 2 ^ o) < 2 ^ 20 ∧ ((2 ^ o * m) ^^^ 2 ^ o) % 2 ^ o = 0 ∧
    (min (2 ^ o * m) ((2 ^ o * m) ^^^ 2 ^ o)) % 2 ^ (o + 1) = 0 := by
  decide

theorem BUDDY_ADDR_offset (x o : Nat) (hx : x < 2 ^ MAX_ORDER) :
    BUDDY_ADDR (Ptr.mem x) o = some (Ptr.mem ((x ^^^ 2 ^ o : Nat) : Int)) := by
  have h : ((x : Int) % 2 ^ 64).toNat = x := by
    simp only [MAX_ORDER] at hx
    norm_num at hx ⊢
    omega
  simp only [BUDDY_ADDR, h]

/-- Claim C16. For an order `o` with `MIN_ORDER <= o < MAX_ORDER` and a region
offset `x < 2^MAX_ORDER` that is a multiple of `2^o`, the offset
`y = x XOR 2^o` that `BUDDY_ADDR` computes differs from `x` in exactly bit `o`
(`y = x + 2^o` if that bit of `x` is clear, `y = x - 2^o` otherwise), lies
below `2^MAX_ORDER`, is a multiple of `2^o`, `min x y` is a multiple of
`2^(o+1)`, and `BUDDY_ADDR` applied to `y` gives `x` back. -/
theorem buddy_addr_props (o x : Nat) (ho1 : MIN_ORDER ≤ o) (ho2 : o < MAX_ORDER)
    (hx : x < 2 ^ MAX_ORDER) (hd : 2 ^ o ∣ x) :
    ∃ y : Nat, BUDDY_ADDR (Ptr.mem x) o = some (Ptr.mem y) ∧ y = x ^^^ 2 ^ o ∧
      (∀ i, y.testBit i = if i = o then !x.testBit i else x.testBit i) ∧
      (y = if x.testBit o then x - 2 ^ o else x + 2 ^ o) ∧
      (x.testBit o = true → 2 ^ o ≤ x) ∧
      y < 2 ^ MAX_ORDER ∧ 2 ^ o ∣ y ∧ 2 ^ (o + 1) ∣ min x y ∧
      BUDDY_ADDR (Ptr.mem y) o = some (Ptr.mem x) := by
  obtain ⟨m, rfl⟩ := hd
  have hm : m < 2 ^ (20 - o) := by
    have h20 : (2 : Nat) ^ MAX_ORDER = 2 ^ o * 2 ^ (20 - o) := by
      rw [← pow_add]
      simp only [MAX_ORDER] at ho2 ⊢
      congr 1
      omega
    rw [h20] at hx
    exact Nat.lt_of_mul_lt_mul_left hx
  obtain ⟨b1, b2, b3, b4, b5⟩ := xor_order_bit_cases o ho2 ho1 m hm
  refine ⟨(2 ^ o * m) ^^^ 2 ^ o, BUDDY_ADDR_offset _ _ hx, rfl, ?_, b1, b2, b3,
    Nat.dvd_of_mod_eq_zero b4, Nat.dvd_of_mod_eq_zero b5, ?_⟩
  · intro i
    rw [Nat.testBit_xor, Nat.testBit_two_pow]
    by_cases hi : i = o
    · subst hi; simp
    · have hi2 : ¬ (o = i) := fun h => hi h.symm
      simp [hi, hi2]
  · rw [BUDDY_ADDR_offset _ _ b3, Nat.xor_cancel_right]

theorem buddy_addr_props_witness :
    ∃ y : Nat, BUDDY_ADDR (Ptr.mem (8192 : Nat)) 12 = some (Ptr.mem y) ∧ y = 8192 ^^^ 2 ^ 12 ∧
      (∀ i, y.testBit i = if i = 12 then !(8192 : Nat).testBit i else (8192 : Nat).testBit i) ∧
      (y = if (8192 : Nat).testBit 12 then 8192 - 2 ^ 12 else 8192 + 2 ^ 12) ∧
      ((8192 : Nat).testBit 12 = true → 2 ^ 12 ≤ 8192) ∧
      y < 2 ^ MAX_ORDER ∧ 2 ^ 12 ∣ y ∧ 2 ^ (12 + 1) ∣ min 8192 y ∧
      BUDDY_ADDR (Ptr.mem y) 12 = some (Ptr.mem (8192 : Nat)) :=
  buddy_addr_props 12 8192 (by decide) (by decide) (by decide) ⟨2, by norm_num⟩

/-! ## `buddy_free` -/

/-- Claim C12, evaluated on the code. After `buddy_init()` and
`a = buddy_alloc(1 << MAX_ORDER)`, which returns the region base, the first
`buddy_free(a)` frees nothing (the body is empty: the list of order
`MAX_ORDER` still has no entry and the globals are those after the
allocation), and the second `buddy_free(a)` reports no failure, so not
`DoubleFreeOrNotAllocated`. -/
theorem double_free_not_reported :
    buddy_alloc 1 (buddy_init blank) (2 ^ MAX_ORDER)
      = some (Outcome.ret (Ptr.mem 0) (takeFront (buddy_init blank) MAX_ORDER 0) "") ∧
    (buddy_free (takeFront (buddy_init blank) MAX_ORDER 0) (Ptr.mem 0)).free_area MAX_ORDER
      = [] ∧
    dumpCount (buddy_free (takeFront (buddy_init blank) MAX_ORDER 0) (Ptr.mem 0)) MAX_ORDER
      = 0 ∧
    (buddy_free (buddy_free (takeFront (buddy_init blank) MAX_ORDER 0) (Ptr.mem 0))
        (Ptr.mem 0)).free_area MAX_ORDER = [] ∧
    buddy_free_report (buddy_free (takeFront (buddy_init blank) MAX_ORDER 0) (Ptr.mem 0))
      (Ptr.mem 0) ≠ some FreeFailure.DoubleFreeOrNotAllocated := by
  have hk : (takeFront (buddy_init blank) MAX_ORDER 0).free_area MAX_ORDER = [] :=
    takeFront_init_free_area blank MAX_ORDER (by decide) (Nat.le_refl _)
  refine ⟨buddy_alloc_init_max blank 0, hk, ?_, hk, by simp [buddy_free_report]⟩
  rw [dumpCount_eq_length]
  simp only [buddy_free, hk, List.length_nil]

/-- With the lists below `MAX_ORDER` empty, a call that returns an address took
the front entry of the list of order `MAX_ORDER`. -/
theorem alloc_mem_step (fuel : Nat) (s : State) (size : Int) (p : Ptr) (s1 : State)
    (out : String) (h : buddy_alloc fuel s size = some (Outcome.ret p s1 out))
    (hlow : ∀ k, MIN_ORDER ≤ k → k < MAX_ORDER → s.free_area k = []) :
    (p = Ptr.null ∧ s1 = s) ∨
    (size_order size = MAX_ORDER ∧ ∃ left rest, s.free_area MAX_ORDER = left :: rest ∧
      p = PAGE_TO_ADDR (s.g_pages left).Pageindex ∧ s1 = takeFront s MAX_ORDER left) := by
  rcases buddy_alloc_returns fuel s size p s1 out h with
    ⟨h1, h2, _⟩ | ⟨hv, _, left, rest, hlist, h3, h4⟩
  · exact Or.inl ⟨h1, h2⟩
  · have hle : size ≤ 2 ^ MAX_ORDER := by
      by_contra hc; exact hv (Or.inl (lt_of_not_ge hc))
    have hso : size_order size = MAX_ORDER := by
      by_contra hc
      have hlt : size_order size < MAX_ORDER := lt_of_le_of_ne (size_order_le size hle) hc
      have := hlow (size_order size) (size_order_ge size) hlt
      rw [hlist] at this
      cases this
    rw [hso] at hlist h4
    exact Or.inr ⟨hso, left, rest, hlist, h3, h4⟩

theorem takeFront_free_area_low (s : State) (left k : Nat) (hk : k < MAX_ORDER) :
    (takeFront s MAX_ORDER left).free_area k = s.free_area k := by
  simp only [takeFront, list_del_front]
  rw [Function.update_noteq (by omega)]

theorem takeFront_free_area_max (s : State) (left : Nat) :
    (takeFront s MAX_ORDER left).free_area MAX_ORDER = (s.free_area MAX_ORDER).tail := by
  simp [takeFront, list_del_front]

/-- Since `buddy_init()`, the blocks handed out and the entries of the list of
order `MAX_ORDER` together are at most one, and the lower lists are empty. -/
theorem handed_conserves (s : State) (given : List Int) (h : Handed s given) :
    (∀ k, MIN_ORDER ≤ k → k < MAX_ORDER → s.free_area k = []) ∧
      given.length + (s.free_area MAX_ORDER).length ≤ 1 := by
  induction h with
  | init s0 =>
    constructor
    · intro k hk1 hk2
      rw [buddy_init_free_area, if_neg (by omega), if_pos ⟨hk1, hk2⟩]
    · rw [buddy_init_free_area]; simp
  | alloc fuel size a out _ hcall ih =>
    rcases alloc_mem_step fuel _ size _ _ out hcall ih.1 with
      ⟨h1, _⟩ | ⟨_, left, rest, hlist, _, h3⟩
    · cases h1
    · subst h3
      constructor
      · intro k hk1 hk2
        rw [takeFront_free_area_low _ _ _ hk2]
        exact ih.1 k hk1 hk2
      · have h2 := ih.2
        rw [takeFront_free_area_max, hlist]
        rw [hlist] at h2
        simp only [List.tail_cons, List.length_cons] at h2 ⊢
        omega
  | allocNull fuel size out _ hcall ih =>
    rw [buddy_alloc_null_state fuel _ size _ out hcall]
    exact ih
  | free addr _ ih => exact ih

/-- Claim C18. For every state and every address, `buddy_free(addr)` leaves
every free list and every page descriptor unchanged and reports nothing. So no
count of free blocks grows by a call of `buddy_free` or of `buddy_alloc`, and
in a run from `buddy_init()` no block is returned by `buddy_alloc` twice. -/
theorem free_is_noop :
    (∀ (s : State) (addr : Ptr), (buddy_free s addr).free_area = s.free_area ∧
      (buddy_free s addr).g_pages = s.g_pages ∧ buddy_free_report s addr = none) ∧
    (∀ (s : State) (addr : Ptr) (o : Nat),
      dumpCount (buddy_free s addr) o = dumpCount s o) ∧
    (∀ (fuel : Nat) (s : State) (size : Int) (p : Ptr) (s1 : State) (out : String),
      buddy_alloc fuel s size = some (Outcome.ret p s1 out) →
      ∀ o, dumpCount s1 o ≤ dumpCount s o) ∧
    (∀ (s : State) (given : List Int), Handed s given → given.Nodup) := by
  refine ⟨fun s addr => ⟨rfl, rfl, rfl⟩, fun s addr o => rfl, ?_, ?_⟩
  · intro fuel s size p s1 out h o
    rcases buddy_alloc_returns fuel s size p s1 out h with
      ⟨_, h2, _⟩ | ⟨_, _, left, rest, hlist, _, h4⟩
    · rw [h2]
    · rw [h4, dumpCount_eq_length, dumpCount_eq_length]
      simp only [takeFront, list_del_front]
      by_cases ho : o = size_order size
      · subst ho
        rw [Function.update_same, hlist]
        simp
      · rw [Function.update_noteq ho]
  · intro s given h
    have hlen := (handed_conserves s given h).2
    match given, hlen with
    | [], _ => exact List.nodup_nil
    | [a], _ => exact List.nodup_singleton a
    | a :: b :: rest, hlen =>
      simp only [List.length_cons] at hlen
      omega

/-! ## Partition invariant -/

/-- In every reachable state the lists below `MAX_ORDER` are empty, the list of
order `MAX_ORDER` holds at most page 0, and the descriptors are those that
`buddy_init()` wrote. -/
theorem reachable_pages (s : State) (h : Reachable s) :
    (∀ k, MIN_ORDER ≤ k → k < MAX_ORDER → s.free_area k = []) ∧
    (∀ p ∈ s.free_area MAX_ORDER, p = 0) ∧
    (∀ i, i < n_pages →
      s.g_pages i = if i = 0 then ⟨0, (MAX_ORDER : Int)⟩ else ⟨(i : Int), -1⟩) := by
  induction h with
  | init s0 =>
    refine ⟨?_, ?_, ?_⟩
    · intro k hk1 hk2
      rw [buddy_init_free_area, if_neg (by omega), if_pos ⟨hk1, hk2⟩]
    · intro p hp
      rw [buddy_init_free_area] at hp
      simpa using hp
    · intro i hi
      rw [buddy_init_g_pages]
      simp [hi]
  | alloc fuel size p out _ hcall ih =>
    rcases alloc_mem_step fuel _ size _ _ out hcall ih.1 with
      ⟨_, h2⟩ | ⟨_, left, rest, hlist, _, h3⟩
    · rw [h2]; exact ih
    · have hleft : left = 0 := ih.2.1 left (by rw [hlist]; exact List.mem_cons_self _ _)
      subst hleft
      subst h3
      refine ⟨?_, ?_, ?_⟩
      · intro k hk1 hk2
        rw [takeFront_free_area_low _ _ _ hk2]
        exact ih.1 k hk1 hk2
      · intro p hp
        rw [takeFront_free_area_max] at hp
        exact ih.2.1 p (List.mem_of_mem_tail hp)
      · intro i hi
        simp only [takeFront]
        by_cases h0 : i = 0
        · subst h0
          rw [Function.update_same, ih.2.2 0 hi]
          simp
        · rw [Function.update_noteq h0]
          exact ih.2.2 i hi
  | free addr _ ih => exact ih

/-- Claim C15. In every state reachable from `buddy_init()`, the descriptors
with a recorded order other than `-1` head blocks that partition the region:
each has an order in `MIN_ORDER..MAX_ORDER`, starts at a multiple of `2^order`,
covers the pages `[h, h + 2^(order - MIN_ORDER))`, and these page ranges are
pairwise disjoint and cover `0..n_pages-1`. -/
theorem reachable_partition (s : State) (h : Reachable s) : Partition s := by
  obtain ⟨_, _, hp⟩ := reachable_pages s h
  have hhead : ∀ i, i < n_pages → isHead s i → i = 0 := by
    intro i hi hh
    by_contra h0
    rw [isHead, hp i hi, if_neg h0] at hh
    exact hh rfl
  have h0 : s.g_pages 0 = ⟨0, (MAX_ORDER : Int)⟩ := by
    rw [hp 0 (by decide)]; simp
  have hb : blockPages s 0 = n_pages := by
    rw [blockPages, h0]; decide
  refine ⟨?_, ?_, ?_⟩
  · intro i hi hh
    have hi0 := hhead i hi hh
    subst hi0
    rw [hb, h0]
    refine ⟨by decide, le_refl _, ?_, by omega⟩
    simp
  · intro i j hi hj hhi hhj hne
    exact absurd ((hhead i hi hhi).trans (hhead j hj hhj).symm) hne
  · intro i hi
    refine ⟨0, by decide, ?_, Nat.zero_le i, by rw [hb]; omega⟩
    rw [isHead, h0]
    decide

theorem reachable_partition_witness :
    Reachable (takeFront (buddy_init blank) MAX_ORDER 0) ∧
      Partition (takeFront (buddy_init blank) MAX_ORDER 0) :=
  ⟨Reachable.alloc 1 (2 ^ MAX_ORDER) (Ptr.mem 0) "" (Reachable.init blank)
      (buddy_alloc_init_max blank 0),
    reachable_partition _
      (Reachable.alloc 1 (2 ^ MAX_ORDER) (Ptr.mem 0) "" (Reachable.init blank)
        (buddy_alloc_init_max blank 0))⟩

/-! ## Non-termination -/

theorem not_rejected (size : Int) (h1 : 0 < size) (h2 : size ≤ 2 ^ MAX_ORDER) :
    ¬ (size > 2 ^ MAX_ORDER ∨ size ≤ 0) := by
  intro hc
  rcases hc with hc | hc
  · exact absurd h2 (not_le.mpr hc)
  · exact absurd h1 (not_lt.mpr hc)

/-- The scan stops above the order of the request when the list of that order
is empty and a higher list is not. -/
theorem firstNonEmpty_above (fa : Nat → List Nat) (o : Nat) (ho : o ≤ MAX_ORDER)
    (hempty : fa o = []) (k : Nat) (hk1 : o < k) (hk2 : k ≤ MAX_ORDER) (hk : fa k ≠ []) :
    ∃ i, firstNonEmpty fa o (MAX_ORDER + 1 - o) = some i ∧ i ≠ o := by
  cases hscan : firstNonEmpty fa o (MAX_ORDER + 1 - o) with
  | none =>
    have := (firstNonEmpty_none fa o _).mp hscan k (Nat.le_of_lt hk1) (by omega)
    exact absurd this hk
  | some i =>
    refine ⟨i, rfl, ?_⟩
    intro hi
    subst hi
    exact (firstNonEmpty_some fa _ _ _ hscan).2.2.1 hempty

/-- Claim C17. For a size with `0 < size <= 2^MAX_ORDER` and computed order
`o`: if the list of order `o` is empty and the list of some order `k` with
`o < k <= MAX_ORDER` is not, `buddy_alloc(size)` never returns; the nested call
`buddy_alloc(1 << o)` has the same computed order and never returns either.
For every size, `buddy_alloc(size)` returns iff the size is invalid, or the
list of order `o` has an entry, or all lists `o..MAX_ORDER` are empty. After
`buddy_init()` it returns an address exactly for
`2^(MAX_ORDER-1) < size <= 2^MAX_ORDER`. -/
theorem nontermination_condition (s : State) (size : Int) :
    (0 < size → size ≤ 2 ^ MAX_ORDER → s.free_area (size_order size) = [] →
      (∃ k, size_order size < k ∧ k ≤ MAX_ORDER ∧ s.free_area k ≠ []) →
      size_order (2 ^ size_order size) = size_order size ∧
      ∀ fuel, buddy_alloc fuel s (2 ^ size_order size) = none ∧
        buddy_alloc fuel s size = none) ∧
    ((∃ fuel p s1 out, buddy_alloc fuel s size = some (Outcome.ret p s1 out)) ↔
      ((size ≤ 0 ∨ size > 2 ^ MAX_ORDER) ∨ s.free_area (size_order size) ≠ [] ∨
        ∀ k, size_order size ≤ k → k ≤ MAX_ORDER → s.free_area k = [])) ∧
    (∀ s0 : State,
      (∃ fuel a s1 out,
        buddy_alloc fuel (buddy_init s0) size = some (Outcome.ret (Ptr.mem a) s1 out)) ↔
      (2 ^ (MAX_ORDER - 1) < size ∧ size ≤ 2 ^ MAX_ORDER)) := by
  refine ⟨?_, ?_, ?_⟩
  · intro h1 h2 hempty ⟨k, hk1, hk2, hk⟩
    have hv := not_rejected size h1 h2
    have hle := size_order_le size h2
    have hpow : size_order ((2 : Int) ^ size_order size) = size_order size :=
      size_order_pow _ (size_order_ge size) hle
    obtain ⟨i, hscan, hne⟩ :=
      firstNonEmpty_above s.free_area (size_order size) hle hempty k hk1 hk2 hk
    have hv2 : ¬ ((2 : Int) ^ size_order size > 2 ^ MAX_ORDER ∨
        (2 : Int) ^ size_order size ≤ 0) :=
      not_rejected _ (by positivity) (pow_le_pow_right₀ (by norm_num) hle)
    refine ⟨hpow, fun fuel => ⟨?_, buddy_alloc_split s size hv i hscan hne fuel⟩⟩
    refine buddy_alloc_split s _ hv2 i ?_ ?_ fuel
    · rw [hpow]; exact hscan
    · rw [hpow]; exact hne
  · constructor
    · rintro ⟨fuel, p, s1, out, h⟩
      rcases buddy_alloc_returns fuel s size p s1 out h with
        ⟨_, _, h3⟩ | ⟨_, _, left, rest, hlist, _, _⟩
      · rcases h3 with ⟨hc, _⟩ | ⟨_, _, h4⟩
        · exact Or.inl (Or.symm hc)
        · exact Or.inr (Or.inr h4)
      · exact Or.inr (Or.inl (by rw [hlist]; exact List.cons_ne_nil _ _))
    · intro h
      by_cases hv : size > 2 ^ MAX_ORDER ∨ size ≤ 0
      · exact ⟨1, _, _, _, buddy_alloc_invalid 0 s size hv⟩
      · rcases h with h | h | h
        · exact absurd (Or.symm h) hv
        · obtain ⟨left, rest, hlist⟩ := List.exists_cons_of_ne_nil h
          exact ⟨1, _, _, _, buddy_alloc_exact 0 s size hv left rest hlist⟩
        · refine ⟨1, _, _, _, buddy_alloc_nothing 0 s size hv ?_⟩
          rw [firstNonEmpty_none]
          intro k hk1 hk2
          exact h k hk1 (by omega)
  · intro s0
    constructor
    · rintro ⟨fuel, a, s1, out, h⟩
      rcases buddy_alloc_returns fuel _ size _ s1 out h with
        ⟨h1, _, _⟩ | ⟨hv, _, left, rest, hlist, _, _⟩
      · cases h1
      · have hle : size ≤ 2 ^ MAX_ORDER := by
          by_contra hc; exact hv (Or.inl (lt_of_not_ge hc))
        refine ⟨?_, hle⟩
        by_contra hc
        have hsmall := size_order_small size (not_lt.mp hc)
        rw [buddy_init_free_area, if_neg (by simp only [MAX_ORDER] at hsmall ⊢; omega),
          if_pos ⟨size_order_ge size, by simp only [MAX_ORDER] at hsmall ⊢; omega⟩] at hlist
        cases hlist
    · rintro ⟨h1, h2⟩
      have hpos : 0 < size := lt_trans (by positivity) h1
      have hv := not_rejected size hpos h2
      have hso : size_order size = MAX_ORDER := by
        apply Nat.le_antisymm (size_order_le size h2)
        by_contra hc
        have hlt : size_order size ≤ MAX_ORDER - 1 := by
          simp only [MAX_ORDER] at hc ⊢; omega
        have hfit := size_order_fits size h2
        have : (2 : Int) ^ size_order size ≤ 2 ^ (MAX_ORDER - 1) :=
          pow_le_pow_right₀ (by norm_num) hlt
        exact absurd (le_trans hfit this) (not_le.mpr h1)
      have hlist : (buddy_init s0).free_area (size_order size) = 0 :: [] := by
        rw [hso, buddy_init_free_area]; simp
      exact ⟨1, _, _, _, buddy_alloc_exact 0 _ size hv 0 [] hlist⟩

end Buddy
